import Mathlib

/-!
Verification of `MapManager.cpp` (map registry, instance router, admission
controller, update scheduler, instance-identifier allocator).

The C++ source is shallowly embedded: external collaborators (map-definition
store, instance-template store, difficulty tables, player/group state) are
parameters of the decision functions; machine integers become `Nat`; fallible
or fatally-asserting paths return `Option`.
-/

namespace MapMgr

/-! ## Data model: map definitions and admission decisions -/

/-- Embeds the relevant fields of `MapEntry` (`sMapStore` rows):
`ParentMapID` / `CosmeticParentMapID` (with the C++ `-1` sentinel embedded as
`none`), `Instanceable()`, `IsDungeon()`, `IsRaid()`, `Expansion()`. -/
structure MapEntryRec where
  id : Nat
  parentMapID : Option Nat
  cosmeticParentMapID : Option Nat
  instanceable : Bool
  isDungeon : Bool
  isRaid : Bool
  expansion : Nat
deriving Repr, DecidableEq

/-- `entry->ParentMapID != -1 ? entry->ParentMapID : entry->CosmeticParentMapID`,
guarded by `ParentMapID != -1 || CosmeticParentMapID != -1` in
`MapManager::CreateBaseMap`. -/
def MapEntryRec.effectiveParent (e : MapEntryRec) : Option Nat :=
  match e.parentMapID with
  | some p => some p
  | none => e.cosmeticParentMapID

/-- The `Map::EnterState` admission decision returned by
`MapManager::PlayerCannotEnter` (`CAN_ENTER` is the enum's zero / success
value; the others are the closed set of denial codes). -/
inductive EnterState where
  | canEnter
  | cannotEnterAlreadyInMap
  | cannotEnterNoEntry
  | cannotEnterUninstancedDungeon
  | cannotEnterDifficultyUnavailable
  | cannotEnterNotInRaid
  | cannotEnterCorpseInDifferentInstance
  | cannotEnterInstanceBindMismatch
  | cannotEnterTooManyInstances
  | cannotEnterMaxPlayers
  | cannotEnterZoneInCombat
  | cannotEnterUnspecifiedReason
deriving Repr, DecidableEq

/-- The participant-side state read by `PlayerCannotEnter`: each field embeds
one of the `Player`/`Group` accessors the function calls
(`IsGameMaster`, `GetDifficultyID`, `Satisfy`, `GetGroup`/`isRaidGroup`/
`isLFGGroup`, `IsAlive`, `HasCorpse`, `GetCorpseLocation().GetMapId()`,
`isDead`, `GetInstanceSave`, `CheckInstanceCount`). -/
structure PlayerSt where
  isGameMaster : Bool
  difficultyID : Nat
  satisfiesAccess : Bool
  hasGroup : Bool
  groupIsRaid : Bool
  groupIsLFG : Bool
  isAlive : Bool
  hasCorpse : Bool
  corpseMapId : Nat
  isDead : Bool
  instanceSaveId : Nat → Option Nat
  checkInstanceCount : Nat → Bool

/-- External read-only services consulted by `PlayerCannotEnter`:
`sMapStore.LookupEntry`, `sObjectMgr->GetInstanceTemplate` (only the `Parent`
field is used, so the template is embedded as its parent map id),
`sDB2Manager.GetDownscaledMapDifficultyData`, the two world-config reads, and
the group-bound-instance probe of rule 9 (`GetBoundInstance` / `FindMap` /
`boundMap->CannotEnter`, collapsed to the `EnterState` the bound map would
answer: `none` means no binding/save/live map was found). -/
structure AdmissionEnv where
  mapEntry : Nat → Option MapEntryRec
  instanceTemplateParent : Nat → Option Nat
  downscale : Nat → Nat → Option Nat
  configExpansion : Nat
  ignoreRaid : Bool
  boundMapState : Option EnterState

/-- One step of `corpseInstance ? corpseInstance->Parent : 0`. -/
def corpseParentStep (tmpl : Nat → Option Nat) (m : Nat) : Nat :=
  match tmpl m with
  | some p => p
  | none => 0

/-- The `do { ... } while (corpseMap)` loop of `PlayerCannotEnter`: starting
from the corpse's map id, compare against the target `mapid`, stepping to the
instance template's parent; the returned value is the final `corpseMap`
(`0` means the target was never found with a nonzero id). `fuel` bounds the
loop (the loop itself terminates on any acyclic template-parent graph). -/
def corpseWalk (tmpl : Nat → Option Nat) (mapid : Nat) : Nat → Nat → Nat
  | 0, cm => if cm = mapid then cm else 0
  | fuel+1, cm =>
    if cm = mapid then cm
    else if corpseParentStep tmpl cm = 0 then 0
    else corpseWalk tmpl mapid fuel (corpseParentStep tmpl cm)

/-- The raw sequence of `corpseMap` values the loop compares against the
target: the corpse's map id followed by template-parent steps, stopping when
the next step yields `0` (no containing instance). -/
def corpseChainIds (tmpl : Nat → Option Nat) : Nat → Nat → List Nat
  | 0, cm => [cm]
  | fuel+1, cm =>
    if corpseParentStep tmpl cm = 0 then [cm]
    else cm :: corpseChainIds tmpl fuel (corpseParentStep tmpl cm)

/-- The corpse's containing-instance parent chain: the nonzero map ids walked
upward from the corpse's map (`0` is the "no instance" sentinel, not a map of
the chain). -/
def corpseChain (tmpl : Nat → Option Nat) (fuel cm : Nat) : List Nat :=
  (corpseChainIds tmpl fuel cm).filter (· ≠ 0)

/-- Rule 10 of the admission procedure: the five-instances-per-hour cap
(`entry->IsDungeon() && (!group || (group && !group->isLFGGroup()))`, the
instance id of the player's save — `0` when absent — fed to
`CheckInstanceCount`, with currently-dead players exempt). -/
def instanceCapRule (mapid : Nat) (entry : MapEntryRec) (p : PlayerSt) : EnterState :=
  if entry.isDungeon && (!p.hasGroup || (p.hasGroup && !p.groupIsLFG)) then
    if !p.checkInstanceCount (match p.instanceSaveId mapid with
        | some i => i
        | none => 0) && !p.isDead then
      EnterState.cannotEnterTooManyInstances
    else EnterState.canEnter
  else EnterState.canEnter

/-- Rules 9 and 10 of the admission procedure, i.e. the code of
`PlayerCannotEnter` after the corpse block: the group-bound-instance
propagation (skipped on login checks: a non-`CAN_ENTER` answer of the bound
map is returned verbatim) followed by the instance cap rule. -/
def rulesAfterCorpse (env : AdmissionEnv) (mapid : Nat) (entry : MapEntryRec)
    (p : PlayerSt) (loginCheck : Bool) : EnterState :=
  match (if !loginCheck && p.hasGroup then env.boundMapState else none) with
  | some d =>
    if d ≠ EnterState.canEnter then d else instanceCapRule mapid entry p
  | none => instanceCapRule mapid entry p

/-- The raid-group rule (rule 7): `entry->IsRaid() && entry->Expansion() >=
CONFIG_EXPANSION` requires a raid group unless `CONFIG_INSTANCE_IGNORE_RAID`. -/
def raidRuleBlocks (env : AdmissionEnv) (entry : MapEntryRec) (p : PlayerSt) : Bool :=
  entry.isRaid && decide (env.configExpansion ≤ entry.expansion) &&
    ((!p.hasGroup || !p.groupIsRaid) && !env.ignoreRaid)

/-- `MapManager::PlayerCannotEnter`, embedded rule for rule. `fuel` bounds the
corpse-chain walk. -/
def playerCannotEnter (env : AdmissionEnv) (mapid : Nat) (p : PlayerSt)
    (loginCheck : Bool) (fuel : Nat) : EnterState :=
  match env.mapEntry mapid with
  | none => EnterState.cannotEnterNoEntry
  | some entry =>
    if !entry.isDungeon then EnterState.canEnter
    else match env.instanceTemplateParent mapid with
    | none => EnterState.cannotEnterUninstancedDungeon
    | some _ =>
      match env.downscale mapid p.difficultyID with
      | none => EnterState.cannotEnterDifficultyUnavailable
      | some _ =>
        if p.isGameMaster then EnterState.canEnter
        else if !p.satisfiesAccess then EnterState.cannotEnterUnspecifiedReason
        else if raidRuleBlocks env entry p then EnterState.cannotEnterNotInRaid
        else if !p.isAlive && p.hasCorpse &&
                decide (corpseWalk env.instanceTemplateParent mapid fuel p.corpseMapId = 0) then
          EnterState.cannotEnterCorpseInDifferentInstance
        else rulesAfterCorpse env mapid entry p loginCheck

/-! ## Corpse-walk / chain correspondence -/

/-- `0` is never an element of the corpse chain (it is the sentinel). -/
theorem zero_not_mem_corpseChain (tmpl : Nat → Option Nat) (fuel cm : Nat) :
    (0 : Nat) ∉ corpseChain tmpl fuel cm := by
  intro h
  rw [corpseChain, List.mem_filter] at h
  simpa using h.2

/-- A nonzero starting map is always on its own chain. -/
theorem self_mem_corpseChain (tmpl : Nat → Option Nat) (fuel cm : Nat) (h : cm ≠ 0) :
    cm ∈ corpseChain tmpl fuel cm := by
  rw [corpseChain, List.mem_filter]
  refine ⟨?_, by simpa using h⟩
  cases fuel with
  | zero => simp [corpseChainIds]
  | succ f =>
    rw [corpseChainIds]
    by_cases h0 : corpseParentStep tmpl cm = 0 <;> simp [h0]

/-- Stepping the chain: for a target different from the head, membership in
the chain from `cm` is membership in the chain from its parent. -/
theorem mem_corpseChain_step (tmpl : Nat → Option Nat) (f cm x : Nat)
    (h0 : corpseParentStep tmpl cm ≠ 0) (hx : x ≠ cm) :
    x ∈ corpseChain tmpl (f+1) cm ↔ x ∈ corpseChain tmpl f (corpseParentStep tmpl cm) := by
  rw [corpseChain, corpseChain, corpseChainIds, if_neg h0, List.filter_cons]
  by_cases hc : cm = 0
  · simp [hc]
  · simp [hc, hx]

/-- The loop's final `corpseMap` is `0` exactly when the target map id does
not occur among the nonzero ids of the walked chain. -/
theorem corpseWalk_eq_zero_iff (tmpl : Nat → Option Nat) (mapid : Nat) :
    ∀ fuel cm, corpseWalk tmpl mapid fuel cm = 0 ↔ mapid ∉ corpseChain tmpl fuel cm := by
  intro fuel
  induction fuel with
  | zero =>
    intro cm
    simp only [corpseWalk]
    by_cases h : cm = mapid
    · subst h
      rw [if_pos rfl]
      by_cases h0 : cm = 0
      · subst h0
        simp [zero_not_mem_corpseChain]
      · constructor
        · intro hc
          exact absurd hc h0
        · intro hn
          exact absurd (self_mem_corpseChain tmpl 0 cm h0) hn
    · rw [if_neg h]
      constructor
      · intro _ hmem
        rw [corpseChain, corpseChainIds, List.mem_filter] at hmem
        have : mapid = cm := by simpa using hmem.1
        exact h this.symm
      · intro _
        rfl
  | succ f ih =>
    intro cm
    simp only [corpseWalk]
    by_cases h : cm = mapid
    · subst h
      rw [if_pos rfl]
      by_cases h0 : cm = 0
      · subst h0
        simp [zero_not_mem_corpseChain]
      · constructor
        · intro hc
          exact absurd hc h0
        · intro hn
          exact absurd (self_mem_corpseChain tmpl (f+1) cm h0) hn
    · rw [if_neg h]
      by_cases h0 : corpseParentStep tmpl cm = 0
      · rw [if_pos h0]
        constructor
        · intro _ hmem
          rw [corpseChain, corpseChainIds, if_pos h0, List.mem_filter] at hmem
          have : mapid = cm := by simpa using hmem.1
          exact h this.symm
        · intro _
          rfl
      · rw [if_neg h0, ih, mem_corpseChain_step tmpl f cm mapid h0 (fun hh => h hh.symm)]

/-! ## Admission-controller theorems -/

/-- The instance-cap rule can only answer "too many instances" or success. -/
theorem instanceCapRule_ne_corpse (mapid : Nat) (entry : MapEntryRec) (p : PlayerSt) :
    instanceCapRule mapid entry p ≠ EnterState.cannotEnterCorpseInDifferentInstance := by
  unfold instanceCapRule
  split
  · split <;> simp
  · simp

/-- If the bound map never answers "corpse in different instance", neither do
the rules after the corpse block. -/
theorem rulesAfterCorpse_ne_corpse (env : AdmissionEnv) (mapid : Nat) (entry : MapEntryRec)
    (p : PlayerSt) (login : Bool)
    (hb : env.boundMapState ≠ some EnterState.cannotEnterCorpseInDifferentInstance) :
    rulesAfterCorpse env mapid entry p login ≠ EnterState.cannotEnterCorpseInDifferentInstance := by
  unfold rulesAfterCorpse
  split
  next d heq =>
    split
    · intro hcontra
      subst hcontra
      by_cases hc : (!login && p.hasGroup) = true
      · rw [if_pos hc] at heq
        exact hb heq
      · rw [if_neg hc] at heq
        cases heq
    · exact instanceCapRule_ne_corpse mapid entry p
  next heq => exact instanceCapRule_ne_corpse mapid entry p

/-- On the path that reaches the corpse rule with a dead, corpse-holding
participant, the whole evaluation reduces to the corpse test followed by the
later rules. -/
theorem playerCannotEnter_corpse_reduction (env : AdmissionEnv) (mapid : Nat) (p : PlayerSt)
    (login : Bool) (fuel : Nat) (entry : MapEntryRec) (tpar dd : Nat)
    (he : env.mapEntry mapid = some entry) (hd : entry.isDungeon = true)
    (ht : env.instanceTemplateParent mapid = some tpar)
    (hdiff : env.downscale mapid p.difficultyID = some dd)
    (hgm : p.isGameMaster = false) (hacc : p.satisfiesAccess = true)
    (hraid : raidRuleBlocks env entry p = false)
    (halive : p.isAlive = false) (hcorpse : p.hasCorpse = true) :
    playerCannotEnter env mapid p login fuel =
      (if corpseWalk env.instanceTemplateParent mapid fuel p.corpseMapId = 0
        then EnterState.cannotEnterCorpseInDifferentInstance
        else rulesAfterCorpse env mapid entry p login) := by
  simp [playerCannotEnter, he, hd, ht, hdiff, hgm, hacc, hraid, halive, hcorpse]

/-- C1: for an evaluation that reaches the corpse rule with a dead participant
holding a corpse, the decision is "corpse in different instance" exactly when
the target map id does not occur in the corpse's instance parent chain; when
it does occur, the corpse rule is advisory and evaluation continues with the
later rules (group binding, instance cap). The hypothesis `hbound` records
that the bound-instance probe of rule 9 does not itself answer the
corpse-mismatch code (it reports its own denial reasons). -/
theorem corpse_rule_advisory (env : AdmissionEnv) (mapid : Nat) (p : PlayerSt)
    (login : Bool) (fuel : Nat) (entry : MapEntryRec) (tpar dd : Nat)
    (he : env.mapEntry mapid = some entry) (hd : entry.isDungeon = true)
    (ht : env.instanceTemplateParent mapid = some tpar)
    (hdiff : env.downscale mapid p.difficultyID = some dd)
    (hgm : p.isGameMaster = false) (hacc : p.satisfiesAccess = true)
    (hraid : raidRuleBlocks env entry p = false)
    (halive : p.isAlive = false) (hcorpse : p.hasCorpse = true)
    (hbound : env.boundMapState ≠ some EnterState.cannotEnterCorpseInDifferentInstance) :
    (playerCannotEnter env mapid p login fuel = EnterState.cannotEnterCorpseInDifferentInstance
      ↔ mapid ∉ corpseChain env.instanceTemplateParent fuel p.corpseMapId) ∧
    (mapid ∈ corpseChain env.instanceTemplateParent fuel p.corpseMapId →
      playerCannotEnter env mapid p login fuel = rulesAfterCorpse env mapid entry p login) := by
  have hred := playerCannotEnter_corpse_reduction env mapid p login fuel entry tpar dd
    he hd ht hdiff hgm hacc hraid halive hcorpse
  have hiff := corpseWalk_eq_zero_iff env.instanceTemplateParent mapid fuel p.corpseMapId
  constructor
  · rw [hred]
    by_cases hw : corpseWalk env.instanceTemplateParent mapid fuel p.corpseMapId = 0
    · rw [if_pos hw]
      exact ⟨fun _ => hiff.mp hw, fun _ => rfl⟩
    · rw [if_neg hw]
      have hmem : mapid ∈ corpseChain env.instanceTemplateParent fuel p.corpseMapId := by
        by_contra hnot
        exact hw (hiff.mpr hnot)
      exact ⟨fun hcont => absurd hcont (rulesAfterCorpse_ne_corpse env mapid entry p login hbound),
             fun hnot => absurd hmem hnot⟩
  · intro hmem
    have hw : corpseWalk env.instanceTemplateParent mapid fuel p.corpseMapId ≠ 0 :=
      fun h => (hiff.mp h) hmem
    rw [hred, if_neg hw]

/-- Concrete dungeon definition used by the C1 witness. -/
def entryC1 : MapEntryRec :=
  { id := 5, parentMapID := none, cosmeticParentMapID := none,
    instanceable := true, isDungeon := true, isRaid := false, expansion := 0 }

/-- Concrete admission environment for the C1 witness: map 5 is a dungeon
whose instance template has parent 0; map 7 is an inner instance whose
template's parent is 5, so a corpse on map 7 has chain `[7, 5]`. -/
def envC1 : AdmissionEnv :=
  { mapEntry := fun i => if i = 5 then some entryC1 else none,
    instanceTemplateParent := fun i => if i = 5 then some 0 else if i = 7 then some 5 else none,
    downscale := fun _ _ => some 0,
    configExpansion := 0,
    ignoreRaid := false,
    boundMapState := none }

/-- Concrete participant for the C1 witness: dead, with a corpse on map 7. -/
def pC1 : PlayerSt :=
  { isGameMaster := false, difficultyID := 0, satisfiesAccess := true,
    hasGroup := false, groupIsRaid := false, groupIsLFG := false,
    isAlive := false, hasCorpse := true, corpseMapId := 7, isDead := true,
    instanceSaveId := fun _ => none, checkInstanceCount := fun _ => true }

/-- Witness for C1 at a concrete input (corpse chain `[7, 5]` contains the
target 5, so the corpse rule passes through to the later rules). -/
theorem corpse_rule_advisory_witness :
    (playerCannotEnter envC1 5 pC1 false 3 = EnterState.cannotEnterCorpseInDifferentInstance
      ↔ (5 : Nat) ∉ corpseChain envC1.instanceTemplateParent 3 pC1.corpseMapId) ∧
    ((5 : Nat) ∈ corpseChain envC1.instanceTemplateParent 3 pC1.corpseMapId →
      playerCannotEnter envC1 5 pC1 false 3 = rulesAfterCorpse envC1 5 entryC1 pC1 false) :=
  corpse_rule_advisory envC1 5 pC1 false 3 entryC1 0 0
    (by decide) (by decide) (by decide) (by decide) (by decide) (by decide)
    (by decide) (by decide) (by decide) (by decide)

/-- C2: a game master entering a dungeon that exists, has an instance
template, and offers a difficulty, is admitted no matter what the remaining
participant state says (rules 6-10 are bypassed). -/
theorem gm_bypass (env : AdmissionEnv) (mapid : Nat) (p : PlayerSt) (login : Bool)
    (fuel : Nat) (entry : MapEntryRec) (tpar dd : Nat)
    (he : env.mapEntry mapid = some entry) (hd : entry.isDungeon = true)
    (ht : env.instanceTemplateParent mapid = some tpar)
    (hdiff : env.downscale mapid p.difficultyID = some dd)
    (hgm : p.isGameMaster = true) :
    playerCannotEnter env mapid p login fuel = EnterState.canEnter := by
  simp [playerCannotEnter, he, hd, ht, hdiff, hgm]

/-- Concrete raid-dungeon definition used by the C2 witness. -/
def entryC2 : MapEntryRec :=
  { id := 9, parentMapID := none, cosmeticParentMapID := none,
    instanceable := true, isDungeon := true, isRaid := true, expansion := 9 }

/-- Concrete environment for the C2 witness: a raid dungeon at the current
expansion whose bound instance would deny entry. -/
def envC2 : AdmissionEnv :=
  { mapEntry := fun i => if i = 9 then some entryC2 else none,
    instanceTemplateParent := fun i => if i = 9 then some 0 else none,
    downscale := fun _ _ => some 2,
    configExpansion := 1,
    ignoreRaid := false,
    boundMapState := some EnterState.cannotEnterMaxPlayers }

/-- Concrete participant for the C2 witness: a game master who is dead with
no corpse, not in any group, failing the access requirement and over the
instance cap — every later rule would deny a normal player. -/
def pC2 : PlayerSt :=
  { isGameMaster := true, difficultyID := 0, satisfiesAccess := false,
    hasGroup := false, groupIsRaid := false, groupIsLFG := false,
    isAlive := false, hasCorpse := false, corpseMapId := 0, isDead := false,
    instanceSaveId := fun _ => none, checkInstanceCount := fun _ => false }

/-- Witness for C2 at a concrete input. -/
theorem gm_bypass_witness : playerCannotEnter envC2 9 pC2 false 3 = EnterState.canEnter :=
  gm_bypass envC2 9 pC2 false 3 entryC2 0 2
    (by decide) (by decide) (by decide) (by decide) (by decide)

/-- Concrete dungeon definition used by the C3 counterexample and witness. -/
def entryC3 : MapEntryRec :=
  { id := 5, parentMapID := none, cosmeticParentMapID := none,
    instanceable := true, isDungeon := true, isRaid := false, expansion := 0 }

/-- Concrete environment for the C3 counterexample: map 5 is a plain dungeon
with an instance template and an offered difficulty. -/
def envC3 : AdmissionEnv :=
  { mapEntry := fun i => if i = 5 then some entryC3 else none,
    instanceTemplateParent := fun i => if i = 5 then some 0 else none,
    downscale := fun _ _ => some 0,
    configExpansion := 0,
    ignoreRaid := false,
    boundMapState := none }

/-- Concrete participant for the C3 counterexample: dead, no corpse,
non-elevated, satisfying the access requirement, no group (so the raid rule
passes), and over the recent-instance cap. -/
def pC3 : PlayerSt :=
  { isGameMaster := false, difficultyID := 0, satisfiesAccess := true,
    hasGroup := false, groupIsRaid := false, groupIsLFG := false,
    isAlive := false, hasCorpse := false, corpseMapId := 0, isDead := true,
    instanceSaveId := fun _ => none, checkInstanceCount := fun _ => false }

/-- Counterexample to C3: a dead, corpse-less, non-elevated participant who
satisfies every earlier rule is *admitted* (the corpse block only logs when no
corpse exists, and a dead participant is exempt from the instance cap), so the
evaluation yields no denial at all — contradicting the claim that it yields
one. All hypotheses of the claim hold at this input. -/
theorem dead_no_corpse_counterexample :
    pC3.isGameMaster = false ∧ pC3.isDead = true ∧ pC3.isAlive = false ∧
    pC3.hasCorpse = false ∧ pC3.satisfiesAccess = true ∧
    envC3.mapEntry 5 = some entryC3 ∧ entryC3.isDungeon = true ∧
    raidRuleBlocks envC3 entryC3 pC3 = false ∧
    playerCannotEnter envC3 5 pC3 false 3 = EnterState.canEnter := by
  decide

/-- C3 as amended: for a non-elevated dead participant without a corpse, the
corpse block produces no failure — evaluation continues to the later rules —
and when no group-bound instance denies entry the result is success (the
participant being dead is exempt even from the instance cap). -/
theorem dead_no_corpse_passes (env : AdmissionEnv) (mapid : Nat) (p : PlayerSt)
    (login : Bool) (fuel : Nat) (entry : MapEntryRec) (tpar dd : Nat)
    (he : env.mapEntry mapid = some entry) (hd : entry.isDungeon = true)
    (ht : env.instanceTemplateParent mapid = some tpar)
    (hdiff : env.downscale mapid p.difficultyID = some dd)
    (hgm : p.isGameMaster = false) (hacc : p.satisfiesAccess = true)
    (hraid : raidRuleBlocks env entry p = false)
    (halive : p.isAlive = false) (hcorpse : p.hasCorpse = false)
    (hdead : p.isDead = true) :
    playerCannotEnter env mapid p login fuel = rulesAfterCorpse env mapid entry p login ∧
    (env.boundMapState = none →
      playerCannotEnter env mapid p login fuel = EnterState.canEnter) := by
  have h1 : playerCannotEnter env mapid p login fuel = rulesAfterCorpse env mapid entry p login := by
    simp [playerCannotEnter, he, hd, ht, hdiff, hgm, hacc, hraid, halive, hcorpse]
  refine ⟨h1, fun hb => ?_⟩
  rw [h1]
  unfold rulesAfterCorpse
  have hnone : (if !login && p.hasGroup then env.boundMapState else none) = none := by
    rw [hb]
    split <;> rfl
  rw [hnone]
  simp [instanceCapRule, hdead]

/-- Witness for the amended C3 at a concrete input. -/
theorem dead_no_corpse_passes_witness :
    playerCannotEnter envC3 5 pC3 true 3 = rulesAfterCorpse envC3 5 entryC3 pC3 true ∧
    (envC3.boundMapState = none → playerCannotEnter envC3 5 pC3 true 3 = EnterState.canEnter) :=
  dead_no_corpse_passes envC3 5 pC3 true 3 entryC3 0 0
    (by decide) (by decide) (by decide) (by decide) (by decide) (by decide)
    (by decide) (by decide) (by decide) (by decide)

/-! ## Update scheduler (`MapManager::Update`)

Modelled from the spec where the source file only shows the calls: the
`IntervalTimer` (`i_timer`) accumulates elapsed milliseconds on `Update(diff)`
and `Passed()` holds once the accumulated value reaches the configured
interval; `MapManager::Update` is fully visible in the source: it returns
early when the timer has not passed, otherwise delivers one `Update` (Primary)
to every registered map, then one `DelayedUpdate` (Delayed) to every map, both
with the accumulated time, and finally resets the accumulator with
`SetCurrent(0)`. The sequential (no worker pool) configuration is embedded. -/

/-- Scheduler state: the interval timer's accumulated value and configured
threshold, plus the registered base maps in registry-iteration order. -/
structure SchedState where
  current : Nat
  interval : Nat
  maps : List Nat
deriving Repr, DecidableEq

/-- One observable update delivered to a map: the Primary pass
(`Map::Update`) or the Delayed pass (`Map::DelayedUpdate`), with the
accumulated time passed as `uint32(i_timer.GetCurrent())`. -/
inductive TickEv where
  | primary (mapId : Nat) (t : Nat)
  | delayed (mapId : Nat) (t : Nat)
deriving Repr, DecidableEq

/-- `MapManager::Update(diff)` in the sequential configuration, returning the
new state and the list of updates delivered, in delivery order. -/
def schedAdvance (st : SchedState) (diff : Nat) : SchedState × List TickEv :=
  if st.current + diff < st.interval then
    ({ st with current := st.current + diff }, [])
  else
    ({ st with current := 0 },
     st.maps.map (fun m => TickEv.primary m (st.current + diff)) ++
       st.maps.map (fun m => TickEv.delayed m (st.current + diff)))

/-- In one Primary-then-Delayed pass over a duplicate-free registry, every
registered map receives exactly one Primary and exactly one Delayed update. -/
theorem tickev_counts (maps : List Nat) (T m : Nat) (hnd : maps.Nodup) (hm : m ∈ maps) :
    ((maps.map (fun x => TickEv.primary x T)) ++ maps.map (fun x => TickEv.delayed x T)).count
        (TickEv.primary m T) = 1 ∧
    ((maps.map (fun x => TickEv.primary x T)) ++ maps.map (fun x => TickEv.delayed x T)).count
        (TickEv.delayed m T) = 1 := by
  have hinjp : Function.Injective (fun x => TickEv.primary x T) := fun a b hab => by
    injection hab
  have hinjd : Function.Injective (fun x => TickEv.delayed x T) := fun a b hab => by
    injection hab
  constructor
  · rw [List.count_append]
    have h1 : (maps.map (fun x => TickEv.primary x T)).count (TickEv.primary m T) = 1 := by
      rw [List.count_map_of_injective maps _ hinjp]
      exact List.count_eq_one_of_mem hnd hm
    have h2 : (maps.map (fun x => TickEv.delayed x T)).count (TickEv.primary m T) = 0 := by
      rw [List.count_eq_zero]
      intro hc
      rcases List.mem_map.mp hc with ⟨x, _, hx⟩
      cases hx
    omega
  · rw [List.count_append]
    have h1 : (maps.map (fun x => TickEv.delayed x T)).count (TickEv.delayed m T) = 1 := by
      rw [List.count_map_of_injective maps _ hinjd]
      exact List.count_eq_one_of_mem hnd hm
    have h2 : (maps.map (fun x => TickEv.primary x T)).count (TickEv.delayed m T) = 0 := by
      rw [List.count_eq_zero]
      intro hc
      rcases List.mem_map.mp hc with ⟨x, _, hx⟩
      cases hx
    omega

/-- C5: starting from a zero accumulator with threshold `T > 0`, two
`Advance` calls with deltas `d1`, `d2`: if `d1 + d2 < T` no update is
delivered and the accumulator holds `d1 + d2`; if `d1 + d2 = T`, the two
calls together deliver exactly one Primary pass over all registered maps
followed by one Delayed pass (every Primary of the pass precedes every
Delayed, in registry order), each map receiving exactly one of each, and the
accumulator is reset to zero. -/
theorem scheduler_two_calls (T : Nat) (maps : List Nat) (d1 d2 : Nat) (hT : 0 < T) :
    (d1 + d2 < T →
      (schedAdvance ((schedAdvance ⟨0, T, maps⟩ d1).1) d2).2 = [] ∧
      (schedAdvance ⟨0, T, maps⟩ d1).2 = [] ∧
      (schedAdvance ((schedAdvance ⟨0, T, maps⟩ d1).1) d2).1.current = d1 + d2) ∧
    (d1 + d2 = T →
      (schedAdvance ⟨0, T, maps⟩ d1).2 ++ (schedAdvance ((schedAdvance ⟨0, T, maps⟩ d1).1) d2).2 =
        maps.map (fun m => TickEv.primary m T) ++ maps.map (fun m => TickEv.delayed m T) ∧
      (schedAdvance ((schedAdvance ⟨0, T, maps⟩ d1).1) d2).1.current = 0 ∧
      (maps.Nodup → ∀ m ∈ maps,
        ((schedAdvance ⟨0, T, maps⟩ d1).2 ++
          (schedAdvance ((schedAdvance ⟨0, T, maps⟩ d1).1) d2).2).count (TickEv.primary m T) = 1 ∧
        ((schedAdvance ⟨0, T, maps⟩ d1).2 ++
          (schedAdvance ((schedAdvance ⟨0, T, maps⟩ d1).1) d2).2).count (TickEv.delayed m T) = 1)) := by
  constructor
  · intro hlt
    have h1 : d1 < T := lt_of_le_of_lt (Nat.le_add_right d1 d2) hlt
    have e1 : schedAdvance ⟨0, T, maps⟩ d1 = (⟨d1, T, maps⟩, []) := by
      rw [schedAdvance]
      simp [Nat.zero_add, h1]
    rw [e1]
    have e2 : schedAdvance ⟨d1, T, maps⟩ d2 = (⟨d1 + d2, T, maps⟩, []) := by
      rw [schedAdvance]
      simp [hlt]
    rw [e2]
    exact ⟨rfl, rfl, rfl⟩
  · intro heq
    by_cases h1 : d1 < T
    · have e1 : schedAdvance ⟨0, T, maps⟩ d1 = (⟨d1, T, maps⟩, []) := by
        rw [schedAdvance]
        simp [Nat.zero_add, h1]
      have e2 : schedAdvance ⟨d1, T, maps⟩ d2 =
          (⟨0, T, maps⟩,
            maps.map (fun m => TickEv.primary m T) ++ maps.map (fun m => TickEv.delayed m T)) := by
        rw [schedAdvance]
        simp only [heq]
        rw [if_neg (Nat.lt_irrefl T)]
      rw [e1, e2]
      refine ⟨by simp, rfl, fun hnd m hm => ?_⟩
      rw [List.nil_append]
      exact tickev_counts maps T m hnd hm
    · have hd1 : d1 = T := by omega
      have hd2 : d2 = 0 := by omega
      have e1 : schedAdvance ⟨0, T, maps⟩ d1 =
          (⟨0, T, maps⟩,
            maps.map (fun m => TickEv.primary m T) ++ maps.map (fun m => TickEv.delayed m T)) := by
        rw [schedAdvance]
        simp only [Nat.zero_add, hd1]
        rw [if_neg (Nat.lt_irrefl T)]
      have e2 : schedAdvance ⟨0, T, maps⟩ d2 = (⟨0 + d2, T, maps⟩, []) := by
        rw [schedAdvance]
        have hlt2 : 0 + d2 < T := by omega
        rw [if_pos hlt2]
      rw [e1, e2]
      refine ⟨by simp, by simp [hd2], fun hnd m hm => ?_⟩
      rw [List.append_nil]
      exact tickev_counts maps T m hnd hm

/-- Witness for C5: threshold 2, deltas 1+1, two registered maps. -/
theorem scheduler_two_calls_witness :
    ((1 + 1 < 2 →
      (schedAdvance ((schedAdvance ⟨0, 2, [10, 20]⟩ 1).1) 1).2 = [] ∧
      (schedAdvance ⟨0, 2, [10, 20]⟩ 1).2 = [] ∧
      (schedAdvance ((schedAdvance ⟨0, 2, [10, 20]⟩ 1).1) 1).1.current = 1 + 1) ∧
    (1 + 1 = 2 →
      (schedAdvance ⟨0, 2, [10, 20]⟩ 1).2 ++
          (schedAdvance ((schedAdvance ⟨0, 2, [10, 20]⟩ 1).1) 1).2 =
        [10, 20].map (fun m => TickEv.primary m 2) ++ [10, 20].map (fun m => TickEv.delayed m 2) ∧
      (schedAdvance ((schedAdvance ⟨0, 2, [10, 20]⟩ 1).1) 1).1.current = 0 ∧
      (([10, 20] : List Nat).Nodup → ∀ m ∈ ([10, 20] : List Nat),
        ((schedAdvance ⟨0, 2, [10, 20]⟩ 1).2 ++
          (schedAdvance ((schedAdvance ⟨0, 2, [10, 20]⟩ 1).1) 1).2).count (TickEv.primary m 2) = 1 ∧
        ((schedAdvance ⟨0, 2, [10, 20]⟩ 1).2 ++
          (schedAdvance ((schedAdvance ⟨0, 2, [10, 20]⟩ 1).1) 1).2).count (TickEv.delayed m 2) = 1))) :=
  scheduler_two_calls 2 [10, 20] 1 1 (by decide)

/-! ## Instance-identifier allocator

`InitInstanceIds` / `RegisterInstanceId` / `GenerateInstanceId` /
`FreeInstanceId`. The `boost::dynamic_bitset<>`-style `_freeInstanceIds`
(true = free) becomes a `List Bool`; `find_next(pos)` (first set bit at an
index strictly greater than `pos`) becomes `findNextFree`. -/

/-- Allocator state: `_nextInstanceId` and `_freeInstanceIds`. -/
structure Alloc where
  nextInstanceId : Nat
  freeIds : List Bool
deriving Repr, DecidableEq

/-- `MapManager::InitInstanceIds`: `_nextInstanceId = 1`, size the table to
the highest persisted id plus two (`maxId = 0` also covers the empty-result
branch, which sizes to `_nextInstanceId + 1 = 2`), all free, index 0
permanently unavailable. -/
def initInstanceIds (maxId : Nat) : Alloc :=
  { nextInstanceId := 1, freeIds := (List.replicate (maxId + 2) true).set 0 false }

/-- `MapManager::RegisterInstanceId`: mark used; if the registered id equals
the cursor, bump the cursor by one (no rescan). -/
def registerInstanceId (a : Alloc) (id : Nat) : Alloc :=
  { nextInstanceId :=
      if a.nextInstanceId = id then a.nextInstanceId + 1 else a.nextInstanceId,
    freeIds := a.freeIds.set id false }

/-- Scan helper for `find_next`: try indices `j, j+1, ...` for `fuel` steps. -/
def findNextFreeAux (f : List Bool) : Nat → Nat → Option Nat
  | _, 0 => none
  | j, fuel+1 => if f.getD j false then some j else findNextFreeAux f (j+1) fuel

/-- `_freeInstanceIds.find_next(i)`: the least free index strictly greater
than `i` (within the table), or `none`. -/
def findNextFree (f : List Bool) (i : Nat) : Option Nat :=
  findNextFreeAux f (i+1) (f.length - (i+1))

/-- `MapManager::GenerateInstanceId`: fatal (`none`) on cursor overflow or on
the `ASSERT(newInstanceId < _freeInstanceIds.size())` failure; otherwise the
cursor is the result, it is marked used, and the cursor moves to the next
free index — growing the table by one free slot when the scan finds none. -/
def generateInstanceId (a : Alloc) : Option (Alloc × Nat) :=
  if a.nextInstanceId = 4294967295 then none
  else if a.nextInstanceId < a.freeIds.length then
    match findNextFree (a.freeIds.set a.nextInstanceId false) a.nextInstanceId with
    | none =>
      some ({ nextInstanceId := (a.freeIds.set a.nextInstanceId false).length,
              freeIds := (a.freeIds.set a.nextInstanceId false) ++ [true] },
            a.nextInstanceId)
    | some j =>
      some ({ nextInstanceId := j, freeIds := a.freeIds.set a.nextInstanceId false },
            a.nextInstanceId)
  else none

/-- `MapManager::FreeInstanceId`: lower the cursor to the freed id if it is
smaller, and mark the id free. -/
def freeInstanceId (a : Alloc) (id : Nat) : Alloc :=
  { nextInstanceId := min id a.nextInstanceId, freeIds := a.freeIds.set id true }

/-- An allocator operation (the public mutating entry points besides
initialization). -/
inductive AllocOp where
  | alloc
  | release (x : Nat)
  | register (x : Nat)
deriving Repr, DecidableEq

/-- Run a sequence of operations, collecting the identifiers returned by the
`alloc` calls; `none` if any `alloc` hits a fatal path. -/
def runAllocOps : Alloc → List AllocOp → Option (Alloc × List Nat)
  | a, [] => some (a, [])
  | a, AllocOp.alloc :: ops =>
    match generateInstanceId a with
    | none => none
    | some (a', id) =>
      match runAllocOps a' ops with
      | none => none
      | some (a'', ids) => some (a'', id :: ids)
  | a, AllocOp.release x :: ops => runAllocOps (freeInstanceId a x) ops
  | a, AllocOp.register x :: ops => runAllocOps (registerInstanceId a x) ops

/-- The cursor invariant of the availability table: the cursor is a valid
index, the slot it points at is free, and every lower index is used — i.e.
the cursor is the least free index. -/
def AllocInv (a : Alloc) : Prop :=
  a.nextInstanceId < a.freeIds.length ∧
  a.freeIds.getD a.nextInstanceId false = true ∧
  ∀ j, j < a.nextInstanceId → a.freeIds.getD j false = false

/-! ### Scan-helper lemmas -/

theorem findNextFreeAux_some (f : List Bool) :
    ∀ fuel j r, findNextFreeAux f j fuel = some r →
      f.getD r false = true ∧ j ≤ r ∧ r < j + fuel ∧
        ∀ k, j ≤ k → k < r → f.getD k false = false := by
  intro fuel
  induction fuel with
  | zero =>
    intro j r h
    cases h
  | succ n ih =>
    intro j r h
    rw [findNextFreeAux] at h
    by_cases hj : f.getD j false = true
    · rw [if_pos hj] at h
      cases h
      exact ⟨hj, Nat.le_refl _, by omega, fun k hk1 hk2 => by omega⟩
    · rw [if_neg hj] at h
      obtain ⟨h1, h2, h3, h4⟩ := ih (j+1) r h
      refine ⟨h1, by omega, by omega, fun k hk1 hk2 => ?_⟩
      by_cases hkj : k = j
      · subst hkj
        exact Bool.not_eq_true _ ▸ (Bool.eq_false_iff.mpr (fun hc => hj hc))
      · exact h4 k (by omega) hk2

theorem findNextFreeAux_none (f : List Bool) :
    ∀ fuel j, findNextFreeAux f j fuel = none →
      ∀ k, j ≤ k → k < j + fuel → f.getD k false = false := by
  intro fuel
  induction fuel with
  | zero =>
    intro j _ k hk1 hk2
    omega
  | succ n ih =>
    intro j h k hk1 hk2
    rw [findNextFreeAux] at h
    by_cases hj : f.getD j false = true
    · rw [if_pos hj] at h
      cases h
    · rw [if_neg hj] at h
      by_cases hkj : k = j
      · subst hkj
        exact Bool.eq_false_iff.mpr (fun hc => hj hc)
      · exact ih (j+1) h k (by omega) (by omega)

theorem findNextFree_some (f : List Bool) (i r : Nat) (h : findNextFree f i = some r) :
    f.getD r false = true ∧ i < r ∧ r < f.length ∧
      ∀ k, i < k → k < r → f.getD k false = false := by
  obtain ⟨h1, h2, h3, h4⟩ := findNextFreeAux_some f (f.length - (i+1)) (i+1) r h
  exact ⟨h1, by omega, by omega, fun k hk1 hk2 => h4 k (by omega) hk2⟩

theorem findNextFree_none (f : List Bool) (i : Nat) (h : findNextFree f i = none) :
    ∀ k, i < k → k < f.length → f.getD k false = false := by
  intro k hk1 hk2
  exact findNextFreeAux_none f (f.length - (i+1)) (i+1) h k (by omega) (by omega)

/-! ### Invariant preservation -/

theorem allocInv_init (maxId : Nat) : AllocInv (initInstanceIds maxId) := by
  refine ⟨?_, ?_, ?_⟩
  · show (1 : Nat) < ((List.replicate (maxId + 2) true).set 0 false).length
    simp only [List.length_set, List.length_replicate]
    omega
  · show ((List.replicate (maxId + 2) true).set 0 false).getD 1 false = true
    rw [List.getD_eq_getElem?_getD, List.getElem?_set_ne (by omega)]
    rw [List.getElem?_replicate, if_pos (by omega)]
    rfl
  · intro j hj
    have hj0 : j = 0 := by
      have : j < (1 : Nat) := hj
      omega
    subst hj0
    show ((List.replicate (maxId + 2) true).set 0 false).getD 0 false = false
    rw [List.getD_eq_getElem?_getD, List.getElem?_set_eq_of_lt _ (by simp)]
    rfl

theorem allocInv_generate (a : Alloc) (a' : Alloc) (id : Nat) (hInv : AllocInv a)
    (h : generateInstanceId a = some (a', id)) :
    AllocInv a' ∧ id = a.nextInstanceId ∧ a.nextInstanceId < a'.nextInstanceId ∧
      a.freeIds.length ≤ a'.freeIds.length := by
  obtain ⟨hlt, hfree, hleast⟩ := hInv
  rw [generateInstanceId] at h
  by_cases hbig : a.nextInstanceId = 4294967295
  · rw [if_pos hbig] at h
    cases h
  rw [if_neg hbig, if_pos hlt] at h
  set f1 := a.freeIds.set a.nextInstanceId false with hf1
  have hf1len : f1.length = a.freeIds.length := by
    simp [hf1]
  have hf1next : f1.getD a.nextInstanceId false = false := by
    rw [hf1, List.getD_eq_getElem?_getD, List.getElem?_set_eq_of_lt _ hlt]
    rfl
  have hf1low : ∀ j, j < a.nextInstanceId → f1.getD j false = false := by
    intro j hj
    rw [hf1, List.getD_eq_getElem?_getD, List.getElem?_set_ne (by omega)]
    rw [← List.getD_eq_getElem?_getD]
    exact hleast j hj
  cases hscan : findNextFree f1 a.nextInstanceId with
  | none =>
    rw [hscan] at h
    cases h
    have hnone := findNextFree_none f1 a.nextInstanceId hscan
    refine ⟨⟨?_, ?_, ?_⟩, rfl, ?_, ?_⟩
    · show f1.length < (f1 ++ [true]).length
      simp
    · show (f1 ++ [true]).getD f1.length false = true
      rw [List.getD_eq_getElem?_getD, List.getElem?_append_right (Nat.le_refl _)]
      simp
    · intro j hj
      have hjlen : j < f1.length := hj
      show (f1 ++ [true]).getD j false = false
      rw [List.getD_eq_getElem?_getD, List.getElem?_append_left hjlen,
        ← List.getD_eq_getElem?_getD]
      rcases Nat.lt_trichotomy j a.nextInstanceId with hlt2 | heq2 | hgt2
      · exact hf1low j hlt2
      · subst heq2
        exact hf1next
      · exact hnone j hgt2 hjlen
    · show a.nextInstanceId < f1.length
      omega
    · show a.freeIds.length ≤ (f1 ++ [true]).length
      simp only [List.length_append, List.length_cons, List.length_nil]
      omega
  | some r =>
    rw [hscan] at h
    cases h
    obtain ⟨hr1, hr2, hr3, hr4⟩ := findNextFree_some f1 a.nextInstanceId r hscan
    refine ⟨⟨hr3, hr1, ?_⟩, rfl, hr2, ?_⟩
    · intro j hj
      rcases Nat.lt_trichotomy j a.nextInstanceId with hlt2 | heq2 | hgt2
      · exact hf1low j hlt2
      · subst heq2
        exact hf1next
      · exact hr4 j hgt2 hj
    · show a.freeIds.length ≤ f1.length
      omega

theorem allocInv_free (a : Alloc) (x : Nat) (hInv : AllocInv a) :
    AllocInv (freeInstanceId a x) := by
  obtain ⟨hlt, hfree, hleast⟩ := hInv
  by_cases hx : x < a.freeIds.length
  · by_cases hcmp : x < a.nextInstanceId
    · refine ⟨?_, ?_, ?_⟩
      · simp [freeInstanceId]
        omega
      · have : min x a.nextInstanceId = x := by omega
        simp only [freeInstanceId, this]
        rw [List.getD_eq_getElem?_getD, List.getElem?_set_eq_of_lt _ hx]
        rfl
      · intro j hj
        simp only [freeInstanceId] at hj ⊢
        have hjx : j < x := by omega
        rw [List.getD_eq_getElem?_getD, List.getElem?_set_ne (by omega),
          ← List.getD_eq_getElem?_getD]
        exact hleast j (by omega)
    · have hmin : min x a.nextInstanceId = a.nextInstanceId := by omega
      refine ⟨?_, ?_, ?_⟩
      · simp [freeInstanceId, hmin]
        omega
      · simp only [freeInstanceId, hmin]
        by_cases hxe : x = a.nextInstanceId
        · subst hxe
          rw [List.getD_eq_getElem?_getD, List.getElem?_set_eq_of_lt _ hx]
          rfl
        · rw [List.getD_eq_getElem?_getD, List.getElem?_set_ne (by omega),
            ← List.getD_eq_getElem?_getD]
          exact hfree
      · intro j hj
        simp only [freeInstanceId, hmin] at hj ⊢
        rw [List.getD_eq_getElem?_getD, List.getElem?_set_ne (by omega),
          ← List.getD_eq_getElem?_getD]
        exact hleast j hj
  · have hset : a.freeIds.set x true = a.freeIds := by
      apply List.set_eq_of_length_le
      omega
    have hmin : min x a.nextInstanceId = a.nextInstanceId := by omega
    refine ⟨?_, ?_, ?_⟩
    · simpa [freeInstanceId, hset, hmin] using hlt
    · simpa [freeInstanceId, hset, hmin] using hfree
    · intro j hj
      simp only [freeInstanceId, hset, hmin] at hj ⊢
      exact hleast j hj

/-- The invariant is preserved by any register-free run, the table never
shrinks, and every id the run returns is the cursor (= least free index) at
its allocation time. -/
theorem allocInv_run (ops : List AllocOp) :
    ∀ a a' ids, AllocInv a → (∀ x, AllocOp.register x ∉ ops) →
      runAllocOps a ops = some (a', ids) →
      AllocInv a' ∧ a.freeIds.length ≤ a'.freeIds.length := by
  induction ops with
  | nil =>
    intro a a' ids hInv _ hrun
    cases hrun
    exact ⟨hInv, Nat.le_refl _⟩
  | cons op rest ih =>
    intro a a' ids hInv hnoreg hrun
    cases op with
    | alloc =>
      rw [runAllocOps] at hrun
      cases hgen : generateInstanceId a with
      | none =>
        rw [hgen] at hrun
        cases hrun
      | some pr =>
        obtain ⟨a1, id1⟩ := pr
        rw [hgen] at hrun
        dsimp only at hrun
        obtain ⟨hInv1, _, _, hlen1⟩ := allocInv_generate a a1 id1 hInv hgen
        cases hrest : runAllocOps a1 rest with
        | none =>
          rw [hrest] at hrun
          cases hrun
        | some pr2 =>
          obtain ⟨a2, ids2⟩ := pr2
          rw [hrest] at hrun
          dsimp only at hrun
          cases hrun
          have hnoreg' : ∀ x, AllocOp.register x ∉ rest := fun x hx =>
            hnoreg x (List.mem_cons_of_mem _ hx)
          obtain ⟨hInv2, hlen2⟩ := ih a1 _ _ hInv1 hnoreg' hrest
          exact ⟨hInv2, Nat.le_trans hlen1 hlen2⟩
    | release x =>
      rw [runAllocOps] at hrun
      have hnoreg' : ∀ y, AllocOp.register y ∉ rest := fun y hy =>
        hnoreg y (List.mem_cons_of_mem _ hy)
      have hInv1 := allocInv_free a x hInv
      have hlen1 : a.freeIds.length ≤ (freeInstanceId a x).freeIds.length := by
        simp [freeInstanceId]
      obtain ⟨hInv2, hlen2⟩ := ih _ a' ids hInv1 hnoreg' hrun
      exact ⟨hInv2, Nat.le_trans hlen1 hlen2⟩
    | register x =>
      exact absurd (List.mem_cons_self _ _) (hnoreg x)

/-- A successful allocation returns the cursor and strictly raises it (no
invariant needed: the scan only reports indices beyond the cursor, and the
grow path sets the cursor to the old table length, which is beyond it). -/
theorem generate_next_lt (a a1 : Alloc) (id1 : Nat)
    (h : generateInstanceId a = some (a1, id1)) :
    id1 = a.nextInstanceId ∧ a.nextInstanceId < a1.nextInstanceId := by
  rw [generateInstanceId] at h
  by_cases hbig : a.nextInstanceId = 4294967295
  · rw [if_pos hbig] at h
    cases h
  rw [if_neg hbig] at h
  by_cases hlt : a.nextInstanceId < a.freeIds.length
  · rw [if_pos hlt] at h
    cases hscan : findNextFree (a.freeIds.set a.nextInstanceId false) a.nextInstanceId with
    | none =>
      rw [hscan] at h
      cases h
      refine ⟨rfl, ?_⟩
      show a.nextInstanceId < (a.freeIds.set a.nextInstanceId false).length
      simpa using hlt
    | some r =>
      rw [hscan] at h
      cases h
      obtain ⟨_, hr2, _, _⟩ := findNextFree_some _ _ r hscan
      exact ⟨rfl, hr2⟩
  · rw [if_neg hlt] at h
    cases h

/-- Along any successful run whose release arguments are nonzero, the cursor
stays at least 1 and every returned identifier is at least 1. -/
theorem runAllocOps_pos (ops : List AllocOp) :
    ∀ a a' ids, 1 ≤ a.nextInstanceId →
      (∀ x, AllocOp.release x ∈ ops → x ≠ 0) →
      runAllocOps a ops = some (a', ids) →
      (∀ i ∈ ids, 1 ≤ i) ∧ 1 ≤ a'.nextInstanceId := by
  induction ops with
  | nil =>
    intro a a' ids h1 _ hrun
    cases hrun
    exact ⟨fun i hi => absurd hi (List.not_mem_nil i), h1⟩
  | cons op rest ih =>
    intro a a' ids h1 hrel hrun
    cases op with
    | alloc =>
      rw [runAllocOps] at hrun
      cases hgen : generateInstanceId a with
      | none =>
        rw [hgen] at hrun
        cases hrun
      | some pr =>
        obtain ⟨a1, id1⟩ := pr
        rw [hgen] at hrun
        dsimp only at hrun
        obtain ⟨hid, hltc⟩ := generate_next_lt a a1 id1 hgen
        cases hrest : runAllocOps a1 rest with
        | none =>
          rw [hrest] at hrun
          cases hrun
        | some pr2 =>
          obtain ⟨a2, ids2⟩ := pr2
          rw [hrest] at hrun
          dsimp only at hrun
          cases hrun
          have hrel' : ∀ x, AllocOp.release x ∈ rest → x ≠ 0 := fun x hx =>
            hrel x (List.mem_cons_of_mem _ hx)
          obtain ⟨hall, hfin⟩ := ih a1 _ _ (by omega) hrel' hrest
          refine ⟨?_, hfin⟩
          intro i hi
          rcases List.mem_cons.mp hi with hh | hh
          · subst hh
            omega
          · exact hall i hh
    | release x =>
      rw [runAllocOps] at hrun
      have hx0 : x ≠ 0 := hrel x (List.mem_cons_self _ _)
      have h1' : 1 ≤ (freeInstanceId a x).nextInstanceId := by
        simp only [freeInstanceId]
        omega
      exact ih _ a' ids h1' (fun y hy => hrel y (List.mem_cons_of_mem _ hy)) hrun
    | register x =>
      rw [runAllocOps] at hrun
      have h1' : 1 ≤ (registerInstanceId a x).nextInstanceId := by
        simp only [registerInstanceId]
        split <;> omega
      exact ih _ a' ids h1' (fun y hy => hrel y (List.mem_cons_of_mem _ hy)) hrun

/-- A run of `N` straight allocations returns `N` strictly increasing (hence
distinct) identifiers, all at least the starting cursor and nonzero. -/
theorem allocRun_increasing (N : Nat) :
    ∀ a a' ids, 1 ≤ a.nextInstanceId →
      runAllocOps a (List.replicate N AllocOp.alloc) = some (a', ids) →
      ids.length = N ∧ List.Pairwise (· < ·) ids ∧
        ∀ i ∈ ids, a.nextInstanceId ≤ i ∧ i ≠ 0 := by
  induction N with
  | zero =>
    intro a a' ids _ hrun
    rw [List.replicate_zero, runAllocOps] at hrun
    cases hrun
    exact ⟨rfl, List.Pairwise.nil, fun i hi => absurd hi (List.not_mem_nil i)⟩
  | succ n ih =>
    intro a a' ids h1 hrun
    rw [List.replicate_succ, runAllocOps] at hrun
    cases hgen : generateInstanceId a with
    | none =>
      rw [hgen] at hrun
      cases hrun
    | some pr =>
      obtain ⟨a1, id1⟩ := pr
      rw [hgen] at hrun
      dsimp only at hrun
      obtain ⟨hid, hltc⟩ := generate_next_lt a a1 id1 hgen
      cases hrest : runAllocOps a1 (List.replicate n AllocOp.alloc) with
      | none =>
        rw [hrest] at hrun
        cases hrun
      | some pr2 =>
        obtain ⟨a2, ids2⟩ := pr2
        rw [hrest] at hrun
        dsimp only at hrun
        cases hrun
        obtain ⟨hlen, hpw, hmem⟩ := ih a1 _ _ (by omega) hrest
        refine ⟨by simp [hlen], ?_, ?_⟩
        · refine List.Pairwise.cons ?_ hpw
          intro b hb
          have := (hmem b hb).1
          omega
        · intro i hi
          rcases List.mem_cons.mp hi with hh | hh
          · subst hh
            exact ⟨by omega, by omega⟩
          · obtain ⟨hm1, hm2⟩ := hmem i hh
            exact ⟨by omega, hm2⟩

/-- C10: after initialization, along any register-free run of allocations and
releases that never hits the fatal paths, the cursor is a valid index of the
availability table, points at a free slot, and is the least free index; in
particular the next allocation (absent overflow) succeeds and returns exactly
the cursor, the overall lowest free identifier. -/
theorem cursor_least_free (maxId : Nat) (ops : List AllocOp) (a' : Alloc) (ids : List Nat)
    (hnoreg : ∀ x, AllocOp.register x ∉ ops)
    (hrun : runAllocOps (initInstanceIds maxId) ops = some (a', ids)) :
    AllocInv a' ∧
    (a'.nextInstanceId ≠ 4294967295 →
      ∃ a2, generateInstanceId a' = some (a2, a'.nextInstanceId)) := by
  obtain ⟨hInv, _⟩ := allocInv_run ops _ a' ids (allocInv_init maxId) hnoreg hrun
  refine ⟨hInv, fun hbig => ?_⟩
  obtain ⟨hlt, _, _⟩ := hInv
  rw [generateInstanceId, if_neg hbig, if_pos hlt]
  cases hscan : findNextFree (a'.freeIds.set a'.nextInstanceId false) a'.nextInstanceId with
  | none => exact ⟨_, rfl⟩
  | some j => exact ⟨_, rfl⟩

/-- Witness for C10: initialize with highest used id 1, allocate once, release
the returned id 1; the invariant holds and the next allocation returns 1. -/
theorem cursor_least_free_witness :
    AllocInv ⟨1, [false, true, true]⟩ ∧
    ((1 : Nat) ≠ 4294967295 →
      ∃ a2, generateInstanceId ⟨1, [false, true, true]⟩ = some (a2, 1)) :=
  cursor_least_free 1 [AllocOp.alloc, AllocOp.release 1] ⟨1, [false, true, true]⟩ [1]
    (fun x hx => by simp at hx) (by decide)

/-- C6: (1) `N` straight allocations from an initialized allocator return `N`
pairwise-distinct nonzero identifiers; (2) from any state reached by a
register-free run, releasing an identifier `x` (non-overflow, as every
previously allocated identifier is) and allocating returns exactly `x`,
provided no identifier lower than `x` is free at the time of the allocation. -/
theorem allocator_round_trip :
    (∀ maxId N a' ids,
      runAllocOps (initInstanceIds maxId) (List.replicate N AllocOp.alloc) = some (a', ids) →
      ids.length = N ∧ ids.Nodup ∧ ∀ i ∈ ids, i ≠ 0) ∧
    (∀ maxId ops a ids x,
      (∀ y, AllocOp.register y ∉ ops) →
      runAllocOps (initInstanceIds maxId) ops = some (a, ids) →
      x ∈ ids → x ≠ 4294967295 →
      (∀ j, j < x → (freeInstanceId a x).freeIds.getD j false = false) →
      ∃ a2, generateInstanceId (freeInstanceId a x) = some (a2, x)) := by
  constructor
  · intro maxId N a' ids hrun
    obtain ⟨hlen, hpw, hmem⟩ :=
      allocRun_increasing N (initInstanceIds maxId) a' ids (Nat.le_refl 1) hrun
    refine ⟨hlen, ?_, fun i hi => (hmem i hi).2⟩
    exact hpw.imp (fun hab => Nat.ne_of_lt hab)
  · intro maxId ops a ids x hnoreg hrun hx hxbig hlow
    obtain ⟨hInv, _⟩ := allocInv_run ops _ a ids (allocInv_init maxId) hnoreg hrun
    obtain ⟨hlt, hfree, hleast⟩ := hInv
    have hge : x ≤ a.nextInstanceId := by
      by_contra hc
      push_neg at hc
      have h1 := hlow a.nextInstanceId hc
      have h2 : (freeInstanceId a x).freeIds.getD a.nextInstanceId false =
          a.freeIds.getD a.nextInstanceId false := by
        show (a.freeIds.set x true).getD a.nextInstanceId false = _
        rw [List.getD_eq_getElem?_getD, List.getElem?_set_ne (by omega),
          ← List.getD_eq_getElem?_getD]
      rw [h2, hfree] at h1
      cases h1
    have hafnext : (freeInstanceId a x).nextInstanceId = x := by
      simp only [freeInstanceId]
      omega
    obtain ⟨hlt2, _, _⟩ := allocInv_free a x ⟨hlt, hfree, hleast⟩
    rw [hafnext] at hlt2
    rw [generateInstanceId, hafnext, if_neg hxbig, if_pos hlt2]
    cases hscan : findNextFree ((freeInstanceId a x).freeIds.set x false) x with
    | none => exact ⟨_, rfl⟩
    | some j => exact ⟨_, rfl⟩

/-- Witness for C6: three allocations from `Initialize(0)` return `[1, 2, 3]`;
and from the state after `Initialize(5); Allocate(); Allocate()` (ids 1 and 2,
cursor 3), `Release(2); Allocate()` returns 2 again. -/
theorem allocator_round_trip_witness :
    (([1, 2, 3] : List Nat).length = 3 ∧ ([1, 2, 3] : List Nat).Nodup ∧
      ∀ i ∈ ([1, 2, 3] : List Nat), i ≠ 0) ∧
    (∃ a2, generateInstanceId
        (freeInstanceId ⟨3, [false, false, false, true, true, true, true]⟩ 2) = some (a2, 2)) :=
  ⟨allocator_round_trip.1 0 3 ⟨4, [false, false, false, false, true]⟩ [1, 2, 3] (by decide),
   allocator_round_trip.2 5 [AllocOp.alloc, AllocOp.alloc]
     ⟨3, [false, false, false, true, true, true, true]⟩ [1, 2] 2
     (fun y hy => by simp at hy) (by decide) (by decide) (by decide) (by decide)⟩

/-- Counterexample to C7 as stated for arbitrary arguments: after
`Initialize(0)`, calling `Release(0)` lowers the cursor to 0 and frees slot 0,
so the next `Allocate()` returns 0. -/
theorem allocate_zero_counterexample :
    runAllocOps (initInstanceIds 0) [AllocOp.release 0, AllocOp.alloc] =
      some (⟨1, [false, true]⟩, [0]) := by
  decide

/-- C7 as amended: after initialization, under any sequence of `Reserve`,
`Allocate` and `Release` operations in which `Release` is never invoked with
identifier 0 (in particular whenever its arguments are identifiers previously
returned by `Allocate`, which are nonzero), no `Allocate` call returns 0. -/
theorem allocate_nonzero (maxId : Nat) (ops : List AllocOp) (a' : Alloc) (ids : List Nat)
    (hrel : ∀ x, AllocOp.release x ∈ ops → x ≠ 0)
    (hrun : runAllocOps (initInstanceIds maxId) ops = some (a', ids)) :
    ∀ i ∈ ids, i ≠ 0 := by
  obtain ⟨hall, _⟩ := runAllocOps_pos ops (initInstanceIds maxId) a' ids (Nat.le_refl 1) hrel hrun
  intro i hi
  have := hall i hi
  omega

/-- Witness for the amended C7: a run mixing Reserve, Allocate and a Release
of a previously allocated id returns only nonzero identifiers. -/
theorem allocate_nonzero_witness : (1 : Nat) ≠ 0 :=
  allocate_nonzero 3 [AllocOp.register 2, AllocOp.alloc, AllocOp.release 1, AllocOp.alloc]
    ⟨3, [false, false, false, true, true]⟩ [1, 1]
    (fun x hx => by
      simp at hx
      omega) (by decide) 1 (by decide)

/-! ## Map registry (`CreateBaseMap` / `CreateBaseMap_i` / `CreateMap` / `FindMap`)

Heap-explicit embedding: `new Map(...)` / `new MapInstanced(...)` allocates a
fresh object identifier; `i_maps` maps a map id to the object id registered
for it; `AddChildTerrainMap` mutates the parent object in place. The grid /
respawn / corpse loading calls (`DiscoverGridMapFiles`, `LoadRespawnTimes`,
`LoadCorpseData`) have no registry-visible effect and are not modelled.
`sMapStore.AssertEntry` (fatal when absent) and the `ASSERT`s become `none`.
`_parentMapData` is the `cd` (child-data) function. Recursion is fuel-bounded
(the C++ recursion terminates exactly when the parent/child data is acyclic,
which the claims' hypotheses capture through duplicate-free visit lists). -/

/-- A live map object: its definition id, whether it is a `MapInstanced`, and
the object ids attached by `AddChildTerrainMap`, in attach order. -/
structure LMapObj where
  mapId : Nat
  instanced : Bool
  children : List Nat
deriving Repr, DecidableEq

/-- Registry state: `i_maps`, the heap of live objects, and the next fresh
object id. -/
structure RegState where
  i_maps : Nat → Option Nat
  heap : Nat → Option LMapObj
  nextObjId : Nat

/-- Pointwise map update. -/
def updMap {α : Type} (f : Nat → Option α) (k : Nat) (v : α) : Nat → Option α :=
  fun x => if x = k then some v else f x

/-- `map->AddChildTerrainMap(child)`: append the child object id to the
parent object's child list. -/
def addChild (st : RegState) (pid cid : Nat) : RegState :=
  { st with heap := fun x =>
      if x = pid then
        match st.heap pid with
        | some o => some { o with children := o.children ++ [cid] }
        | none => none
      else st.heap x }

/-- `MapManager::CreateBaseMap_i`, with its child recursion: a `Sum.inl e`
task creates the object for entry `e` (registering it in `i_maps` *before*
recursing into its `_parentMapData` children) and a `Sum.inr (pid, l)` task
creates the children `l` in order, attaching each to object `pid` after the
child's own subtree completes. Fuel is consumed on every step. -/
def createBaseMapI (store : Nat → Option MapEntryRec) (cd : Nat → List Nat) :
    Nat → RegState → Sum MapEntryRec (Nat × List Nat) → Option (RegState × Nat)
  | 0, _, _ => none
  | fuel+1, st, Sum.inl e =>
    match createBaseMapI store cd fuel
        { i_maps := updMap st.i_maps e.id st.nextObjId,
          heap := updMap st.heap st.nextObjId
            { mapId := e.id, instanced := e.instanceable, children := [] },
          nextObjId := st.nextObjId + 1 }
        (Sum.inr (st.nextObjId, cd e.id)) with
    | none => none
    | some (st2, _) => some (st2, st.nextObjId)
  | _+1, st, Sum.inr (pid, []) => some (st, pid)
  | fuel+1, st, Sum.inr (pid, c :: cs) =>
    match store c with
    | none => none
    | some ce =>
      match createBaseMapI store cd fuel st (Sum.inl ce) with
      | none => none
      | some (st1, cobj) =>
        createBaseMapI store cd fuel (addChild st1 pid cobj) (Sum.inr (pid, cs))

/-- `MapManager::CreateBaseMap`: return the registered object if present;
otherwise, for a definition with a (real or cosmetic) parent, create the
parent first and then *look up* the child — asserting it was installed by the
parent's creation (`ASSERT_NOTNULL`, modelled as `none` on failure); for a
root definition, run `CreateBaseMap_i`. -/
def createBaseMap (store : Nat → Option MapEntryRec) (cd : Nat → List Nat) (fc : Nat) :
    Nat → RegState → Nat → Option (RegState × Nat)
  | 0, _, _ => none
  | fp+1, st, id =>
    match st.i_maps id with
    | some o => some (st, o)
    | none =>
      match store id with
      | none => none
      | some e =>
        match e.effectiveParent with
        | some p =>
          match createBaseMap store cd fc fp st p with
          | none => none
          | some (st1, _) =>
            match st1.i_maps id with
            | none => none
            | some o => some (st1, o)
        | none => createBaseMapI store cd fc st (Sum.inl e)

/-- The map ids visited by a creation task, in creation order, mirroring the
fuel discipline of `createBaseMapI` exactly. -/
def visitIds (cd : Nat → List Nat) : Nat → Sum Nat (List Nat) → List Nat
  | 0, _ => []
  | fuel+1, Sum.inl x => x :: visitIds cd fuel (Sum.inr (cd x))
  | _+1, Sum.inr [] => []
  | fuel+1, Sum.inr (c :: cs) =>
    visitIds cd fuel (Sum.inl c) ++ visitIds cd fuel (Sum.inr cs)

/-- The object id registered for a map id (`0` when absent). -/
def oidOf (st : RegState) (c : Nat) : Nat := (st.i_maps c).getD 0

/-- Per-visited-id correctness of a creation run from a state whose next
fresh object id was `lo`: the id is registered to a freshly allocated object
whose fields come from its store entry and whose children are exactly the
registered objects of its child-data list, in order. -/
@[reducible] def GoodAt (store : Nat → Option MapEntryRec) (cd : Nat → List Nat) (lo : Nat)
    (st' : RegState) (v : Nat) : Prop :=
  ∃ ov ev obj, st'.i_maps v = some ov ∧ store v = some ev ∧
    lo ≤ ov ∧ ov < st'.nextObjId ∧
    st'.heap ov = some obj ∧ obj.mapId = v ∧ obj.instanced = ev.instanceable ∧
    obj.children = (cd v).map (oidOf st') ∧ (cd v).Nodup

/-- A successful entry-creation run visits its own id. -/
theorem visit_head (store : Nat → Option MapEntryRec) (cd : Nat → List Nat)
    (fuel : Nat) (st : RegState) (e : MapEntryRec) (pr : RegState × Nat)
    (h : createBaseMapI store cd fuel st (Sum.inl e) = some pr) :
    e.id ∈ visitIds cd fuel (Sum.inl e.id) := by
  cases fuel with
  | zero => cases h
  | succ f =>
    rw [visitIds]
    exact List.mem_cons_self _ _

/-- Where a visited id comes from: it is the task's own id (or an element of
the task's list), or a child-data element of some visited id. -/
theorem visit_src (cd : Nat → List Nat) : ∀ fuel : Nat,
    (∀ r x, x ∈ visitIds cd fuel (Sum.inl r) →
      x = r ∨ ∃ v, v ∈ visitIds cd fuel (Sum.inl r) ∧ x ∈ cd v) ∧
    (∀ l x, x ∈ visitIds cd fuel (Sum.inr l) →
      x ∈ l ∨ ∃ v, v ∈ visitIds cd fuel (Sum.inr l) ∧ x ∈ cd v) := by
  intro fuel
  induction fuel with
  | zero =>
    constructor
    · intro r x hx
      cases hx
    · intro l x hx
      cases hx
  | succ f ih =>
    constructor
    · intro r x hx
      rw [visitIds] at hx
      rcases List.mem_cons.mp hx with hh | hh
      · exact Or.inl hh
      · rcases (ih.2 (cd r) x hh) with hc | ⟨v, hv1, hv2⟩
        · refine Or.inr ⟨r, List.mem_cons_self _ _, hc⟩
        · exact Or.inr ⟨v, by rw [visitIds]; exact List.mem_cons_of_mem _ hv1, hv2⟩
    · intro l x hx
      cases l with
      | nil => cases hx
      | cons c cs =>
        rw [visitIds] at hx
        rcases List.mem_append.mp hx with hh | hh
        · rcases ih.1 c x hh with hc | ⟨v, hv1, hv2⟩
          · exact Or.inl (hc ▸ List.mem_cons_self _ _)
          · exact Or.inr ⟨v, by rw [visitIds]; exact List.mem_append_left _ hv1, hv2⟩
        · rcases ih.2 cs x hh with hc | ⟨v, hv1, hv2⟩
          · exact Or.inl (List.mem_cons_of_mem _ hc)
          · exact Or.inr ⟨v, by rw [visitIds]; exact List.mem_append_right _ hv1, hv2⟩

/-- Counting a mapped value: if `a` occurs once in a duplicate-free list and
no other element maps to `f a`, then `f a` occurs exactly once in the image. -/
theorem count_map_unique {α β : Type} [DecidableEq α] [DecidableEq β] (f : α → β) :
    ∀ (l : List α) (a : α), l.Nodup → a ∈ l → (∀ b ∈ l, f b = f a → b = a) →
      (l.map f).count (f a) = 1 := by
  intro l
  induction l with
  | nil =>
    intro a _ ha _
    cases ha
  | cons c cs ih =>
    intro a hnd ha huniq
    rw [List.map_cons, List.count_cons]
    rcases List.mem_cons.mp ha with hh | hh
    · subst hh
      have hzero : (cs.map f).count (f a) = 0 := by
        rw [List.count_eq_zero]
        intro hc
        rcases List.mem_map.mp hc with ⟨b, hb1, hb2⟩
        have : b = a := huniq b (List.mem_cons_of_mem _ hb1) hb2
        subst this
        exact (List.nodup_cons.mp hnd).1 hb1
      rw [hzero]
      simp
    · have hne : f c ≠ f a := by
        intro hc
        have : c = a := huniq c (List.mem_cons_self _ _) hc
        subst this
        exact (List.nodup_cons.mp hnd).1 hh
      have := ih a (List.nodup_cons.mp hnd).2 hh
        (fun b hb => huniq b (List.mem_cons_of_mem _ hb))
      rw [this, if_neg (fun hc => hne (eq_of_beq hc))]

/-- The creation-run invariant, proved simultaneously for both task kinds by
induction on the fuel: a successful run over a duplicate-free visit list
(i) only raises the fresh-object counter, (ii) registers the created entry,
(iii) leaves `i_maps` untouched off the visit list and the old heap
untouched (except, for a child-list task, the parent object receiving the new
children), and (iv) makes every visited id `GoodAt`: registered to a fresh
object whose children are exactly the registered objects of its child data. -/
theorem createI_spec (store : Nat → Option MapEntryRec) (cd : Nat → List Nat)
    (Hstore : ∀ i e, store i = some e → e.id = i) :
    ∀ fuel : Nat,
      (∀ st (e : MapEntryRec) st' o,
        createBaseMapI store cd fuel st (Sum.inl e) = some (st', o) →
        store e.id = some e →
        (visitIds cd fuel (Sum.inl e.id)).Nodup →
        st.nextObjId ≤ st'.nextObjId ∧ st'.i_maps e.id = some o ∧
        (∀ k, k ∉ visitIds cd fuel (Sum.inl e.id) → st'.i_maps k = st.i_maps k) ∧
        (∀ q, q < st.nextObjId → st'.heap q = st.heap q) ∧
        (∀ v ∈ visitIds cd fuel (Sum.inl e.id), GoodAt store cd st.nextObjId st' v) ∧
        (∀ v ∈ visitIds cd fuel (Sum.inl e.id), ∀ c ∈ cd v,
          c ∈ visitIds cd fuel (Sum.inl e.id))) ∧
      (∀ st pid l st' r (pobj : LMapObj),
        createBaseMapI store cd fuel st (Sum.inr (pid, l)) = some (st', r) →
        (visitIds cd fuel (Sum.inr l)).Nodup →
        pid < st.nextObjId →
        st.heap pid = some pobj →
        st.nextObjId ≤ st'.nextObjId ∧
        st'.heap pid = some { pobj with children := pobj.children ++ l.map (oidOf st') } ∧
        (∀ k, k ∉ visitIds cd fuel (Sum.inr l) → st'.i_maps k = st.i_maps k) ∧
        (∀ q, q < st.nextObjId → q ≠ pid → st'.heap q = st.heap q) ∧
        (∀ v ∈ visitIds cd fuel (Sum.inr l), GoodAt store cd st.nextObjId st' v) ∧
        (∀ v ∈ visitIds cd fuel (Sum.inr l), ∀ c ∈ cd v, c ∈ visitIds cd fuel (Sum.inr l)) ∧
        (∀ c ∈ l, c ∈ visitIds cd fuel (Sum.inr l)) ∧ l.Nodup) := by
  intro fuel
  induction fuel with
  | zero =>
    constructor
    · intro st e st' o h
      cases h
    · intro st pid l st' r pobj h
      cases h
  | succ f ih =>
    obtain ⟨ihL, ihR⟩ := ih
    constructor
    · -- entry-creation task
      intro st e st' o hrun hse hnd
      rw [createBaseMapI] at hrun
      cases hin : createBaseMapI store cd f
          { i_maps := updMap st.i_maps e.id st.nextObjId,
            heap := updMap st.heap st.nextObjId
              { mapId := e.id, instanced := e.instanceable, children := [] },
            nextObjId := st.nextObjId + 1 }
          (Sum.inr (st.nextObjId, cd e.id)) with
      | none =>
        rw [hin] at hrun
        cases hrun
      | some pr =>
        obtain ⟨st2, r2⟩ := pr
        rw [hin] at hrun
        dsimp only at hrun
        cases hrun
        have hV : visitIds cd (f+1) (Sum.inl e.id) =
            e.id :: visitIds cd f (Sum.inr (cd e.id)) := by
          rw [visitIds]
        rw [hV] at hnd ⊢
        obtain ⟨hhead, hndV⟩ := List.nodup_cons.mp hnd
        have hpidlt : st.nextObjId < st.nextObjId + 1 := Nat.lt_succ_self _
        obtain ⟨kb1, kbHeapPid, kbMaps, kbHeap, kbGood, kbClosure, kbMem, kbNodupL⟩ :=
          ihR _ st.nextObjId (cd e.id) st' r2 ⟨e.id, e.instanceable, []⟩ hin hndV hpidlt
            (by simp [updMap])
        have kb1' : st.nextObjId + 1 ≤ st'.nextObjId := kb1
        have hmapsE : st'.i_maps e.id = some st.nextObjId := by
          rw [kbMaps e.id hhead]
          simp [updMap]
        refine ⟨by omega, hmapsE, ?_, ?_, ?_, ?_⟩
        · intro k hk
          rw [List.mem_cons, not_or] at hk
          rw [kbMaps k hk.2]
          simp [updMap, hk.1]
        · intro q hq
          have h1 := kbHeap q (show q < st.nextObjId + 1 by omega) (by omega)
          rw [h1]
          simp only [updMap]
          rw [if_neg (by omega)]
        · intro v hv
          rcases List.mem_cons.mp hv with hh | hh
          · subst hh
            refine ⟨st.nextObjId, e, ⟨e.id, e.instanceable, (cd e.id).map (oidOf st')⟩,
              hmapsE, hse, Nat.le_refl _, by omega, ?_, rfl, rfl, rfl, kbNodupL⟩
            rw [kbHeapPid]
            rfl
          · obtain ⟨ov, ev, obj, g1, g2, g3, g4, g5, g6, g7, g8, g9⟩ := kbGood v hh
            have g3' : st.nextObjId + 1 ≤ ov := g3
            exact ⟨ov, ev, obj, g1, g2, by omega, g4, g5, g6, g7, g8, g9⟩
        · intro v hv c hc
          rcases List.mem_cons.mp hv with hh | hh
          · subst hh
            exact List.mem_cons_of_mem _ (kbMem c hc)
          · exact List.mem_cons_of_mem _ (kbClosure v hh c hc)
    · -- child-list task
      intro st pid l st' r pobj hrun hnd hpid hpobj
      cases l with
      | nil =>
        rw [createBaseMapI] at hrun
        cases hrun
        refine ⟨Nat.le_refl _, ?_, ?_, ?_, ?_, ?_, ?_, List.nodup_nil⟩
        · simp only [List.map_nil, List.append_nil]
          exact hpobj
        · intro k _
          rfl
        · intro q _ _
          rfl
        · intro v hv
          rw [visitIds] at hv
          cases hv
        · intro v hv
          rw [visitIds] at hv
          cases hv
        · intro c hc
          cases hc
      | cons c cs =>
        rw [createBaseMapI] at hrun
        cases hsc : store c with
        | none =>
          rw [hsc] at hrun
          cases hrun
        | some ce =>
          rw [hsc] at hrun
          dsimp only at hrun
          cases h1 : createBaseMapI store cd f st (Sum.inl ce) with
          | none =>
            rw [h1] at hrun
            cases hrun
          | some pr1 =>
            obtain ⟨stA, cobj⟩ := pr1
            rw [h1] at hrun
            dsimp only at hrun
            have hceid : ce.id = c := Hstore c ce hsc
            have hV : visitIds cd (f+1) (Sum.inr (c :: cs)) =
                visitIds cd f (Sum.inl c) ++ visitIds cd f (Sum.inr cs) := by
              rw [visitIds]
            rw [hV] at hnd ⊢
            obtain ⟨hnd1, hnd2, hdisj⟩ := List.nodup_append.mp hnd
            have hse2 : store ce.id = some ce := by
              rw [hceid]
              exact hsc
            have hnd1' : (visitIds cd f (Sum.inl ce.id)).Nodup := by
              rw [hceid]
              exact hnd1
            obtain ⟨ia1, ia4, ia2, ia3, ia5, ia6⟩ := ihL st ce stA cobj h1 hse2 hnd1'
            have ia2' : ∀ k, k ∉ visitIds cd f (Sum.inl c) → stA.i_maps k = st.i_maps k := by
              intro k hk
              refine ia2 k ?_
              rw [hceid]
              exact hk
            have ia5' : ∀ v ∈ visitIds cd f (Sum.inl c),
                GoodAt store cd st.nextObjId stA v := by
              intro v hv
              refine ia5 v ?_
              rw [hceid]
              exact hv
            have ia6' : ∀ v ∈ visitIds cd f (Sum.inl c), ∀ c' ∈ cd v,
                c' ∈ visitIds cd f (Sum.inl c) := by
              intro v hv c' hc'
              have := ia6 v (by rw [hceid]; exact hv) c' hc'
              rw [hceid] at this
              exact this
            have hBmaps : (addChild stA pid cobj).i_maps = stA.i_maps := rfl
            have hBnext : (addChild stA pid cobj).nextObjId = stA.nextObjId := rfl
            have hpidA : stA.heap pid = st.heap pid := ia3 pid hpid
            have hBheappid : (addChild stA pid cobj).heap pid =
                some { pobj with children := pobj.children ++ [cobj] } := by
              show (if pid = pid then
                      match stA.heap pid with
                      | some obj => some { obj with children := obj.children ++ [cobj] }
                      | none => none
                    else stA.heap pid) = _
              rw [if_pos rfl, hpidA, hpobj]
            have hBheapother : ∀ x, x ≠ pid →
                (addChild stA pid cobj).heap x = stA.heap x := by
              intro x hx
              show (if x = pid then _ else stA.heap x) = stA.heap x
              rw [if_neg hx]
            have hpidB : pid < (addChild stA pid cobj).nextObjId := by
              rw [hBnext]
              omega
            obtain ⟨jb1, jbHeapPid, jbMaps, jbHeap, jbGood, jbClosure, jbMem, jbNodup⟩ :=
              ihR (addChild stA pid cobj) pid cs st' r
                { pobj with children := pobj.children ++ [cobj] }
                hrun hnd2 hpidB hBheappid
            have hcv1 : c ∈ visitIds cd f (Sum.inl c) := by
              have := visit_head store cd f st ce (stA, cobj) h1
              rwa [hceid] at this
            have hcnotv2 : c ∉ visitIds cd f (Sum.inr cs) := hdisj hcv1
            have hmapsc : st'.i_maps c = some cobj := by
              rw [jbMaps c hcnotv2, hBmaps, ← hceid]
              exact ia4
            have hoidc : oidOf st' c = cobj := by
              show (st'.i_maps c).getD 0 = cobj
              rw [hmapsc]
              rfl
            have jb1' : stA.nextObjId ≤ st'.nextObjId := jb1
            refine ⟨by omega, ?_, ?_, ?_, ?_, ?_, ?_, ?_⟩
            · rw [jbHeapPid, List.map_cons, hoidc]
              have hassoc : (pobj.children ++ [cobj]) ++ List.map (oidOf st') cs =
                  pobj.children ++ cobj :: List.map (oidOf st') cs := by
                rw [List.append_assoc]
                rfl
              show some (LMapObj.mk pobj.mapId pobj.instanced
                  ((pobj.children ++ [cobj]) ++ List.map (oidOf st') cs)) =
                some (LMapObj.mk pobj.mapId pobj.instanced
                  (pobj.children ++ cobj :: List.map (oidOf st') cs))
              rw [hassoc]
            · intro k hk
              rw [List.mem_append, not_or] at hk
              rw [jbMaps k hk.2, hBmaps, ia2' k hk.1]
            · intro q hq hqpid
              have hq2 : q < (addChild stA pid cobj).nextObjId := by
                rw [hBnext]
                omega
              rw [jbHeap q hq2 hqpid, hBheapother q hqpid, ia3 q hq]
            · intro v hv
              rcases List.mem_append.mp hv with hh | hh
              · obtain ⟨ov, ev, obj, g1, g2, g3, g4, g5, g6, g7, g8, g9⟩ := ia5' v hh
                have hvnot2 : v ∉ visitIds cd f (Sum.inr cs) := hdisj hh
                have hov_ne_pid : ov ≠ pid := by omega
                have hg1' : st'.i_maps v = some ov := by
                  rw [jbMaps v hvnot2, hBmaps]
                  exact g1
                have hg5' : st'.heap ov = some obj := by
                  have hovB : ov < (addChild stA pid cobj).nextObjId := by
                    rw [hBnext]
                    omega
                  rw [jbHeap ov hovB hov_ne_pid, hBheapother ov hov_ne_pid]
                  exact g5
                refine ⟨ov, ev, obj, hg1', g2, g3, by omega, hg5', g6, g7, ?_, g9⟩
                rw [g8]
                refine List.map_congr_left ?_
                intro c' hc'
                have hc'v1 : c' ∈ visitIds cd f (Sum.inl c) := ia6' v hh c' hc'
                have hc'not2 : c' ∉ visitIds cd f (Sum.inr cs) := hdisj hc'v1
                show (stA.i_maps c').getD 0 = (st'.i_maps c').getD 0
                rw [jbMaps c' hc'not2, hBmaps]
              · obtain ⟨ov, ev, obj, g1, g2, g3, g4, g5, g6, g7, g8, g9⟩ := jbGood v hh
                refine ⟨ov, ev, obj, g1, g2, ?_, g4, g5, g6, g7, g8, g9⟩
                have : (addChild stA pid cobj).nextObjId = stA.nextObjId := rfl
                omega
            · intro v hv c' hc'
              rcases List.mem_append.mp hv with hh | hh
              · exact List.mem_append_left _ (ia6' v hh c' hc')
              · exact List.mem_append_right _ (jbClosure v hh c' hc')
            · intro c' hc'
              rcases List.mem_cons.mp hc' with hh | hh
              · subst hh
                exact List.mem_append_left _ hcv1
              · exact List.mem_append_right _ (jbMem c' hh)
            · rw [List.nodup_cons]
              refine ⟨fun hc => hcnotv2 (jbMem c hc), jbNodup⟩

/-- A successful `CreateBaseMap` call either found the map already registered
(and left the state untouched), or ran `CreateBaseMap_i` on the root of the
parent chain — walking up never creates intermediate standalone objects. -/
theorem createBaseMap_cases (store : Nat → Option MapEntryRec) (cd : Nat → List Nat)
    (fc : Nat) :
    ∀ fp st x st' o, createBaseMap store cd fc fp st x = some (st', o) →
      (st.i_maps x = some o ∧ st' = st) ∨
      (∃ R : Nat, ∃ eR : MapEntryRec, ∃ oR : Nat,
        store R = some eR ∧ eR.effectiveParent = none ∧
        createBaseMapI store cd fc st (Sum.inl eR) = some (st', oR)) := by
  intro fp
  induction fp with
  | zero =>
    intro st x st' o h
    cases h
  | succ g ih =>
    intro st x st' o h
    rw [createBaseMap] at h
    cases hfind : st.i_maps x with
    | some o2 =>
      rw [hfind] at h
      dsimp only at h
      cases h
      exact Or.inl ⟨rfl, rfl⟩
    | none =>
      rw [hfind] at h
      dsimp only at h
      cases hst : store x with
      | none =>
        rw [hst] at h
        cases h
      | some e =>
        rw [hst] at h
        dsimp only at h
        cases hpar : e.effectiveParent with
        | some p =>
          rw [hpar] at h
          dsimp only at h
          cases hrec : createBaseMap store cd fc g st p with
          | none =>
            rw [hrec] at h
            cases h
          | some pr =>
            obtain ⟨st1, o1⟩ := pr
            rw [hrec] at h
            dsimp only at h
            cases hfind2 : st1.i_maps x with
            | none =>
              rw [hfind2] at h
              cases h
            | some o2 =>
              rw [hfind2] at h
              dsimp only at h
              cases h
              rcases ih st p _ _ hrec with ⟨hA, hB⟩ | hR
              · subst hB
                rw [hfind] at hfind2
                cases hfind2
              · exact Or.inr hR
        | none =>
          rw [hpar] at h
          exact Or.inr ⟨x, e, o, hst, hpar, h⟩

/-- After a successful `CreateBaseMap`, the returned object is the one
registered for the requested id. -/
theorem createBaseMap_post (store : Nat → Option MapEntryRec) (cd : Nat → List Nat)
    (fc : Nat)
    (Hstore : ∀ i e, store i = some e → e.id = i)
    (HN : ∀ r er, store r = some er → er.effectiveParent = none →
      (visitIds cd fc (Sum.inl r)).Nodup) :
    ∀ fp st id st' o, createBaseMap store cd fc fp st id = some (st', o) →
      st'.i_maps id = some o := by
  intro fp
  induction fp with
  | zero =>
    intro st id st' o h
    cases h
  | succ g ih =>
    intro st id st' o h
    rw [createBaseMap] at h
    cases hfind : st.i_maps id with
    | some o2 =>
      rw [hfind] at h
      dsimp only at h
      cases h
      exact hfind
    | none =>
      rw [hfind] at h
      dsimp only at h
      cases hst : store id with
      | none =>
        rw [hst] at h
        cases h
      | some e =>
        rw [hst] at h
        dsimp only at h
        cases hpar : e.effectiveParent with
        | some p =>
          rw [hpar] at h
          dsimp only at h
          cases hrec : createBaseMap store cd fc g st p with
          | none =>
            rw [hrec] at h
            cases h
          | some pr =>
            obtain ⟨st1, o1⟩ := pr
            rw [hrec] at h
            dsimp only at h
            cases hfind2 : st1.i_maps id with
            | none =>
              rw [hfind2] at h
              cases h
            | some o2 =>
              rw [hfind2] at h
              dsimp only at h
              cases h
              exact hfind2
        | none =>
          rw [hpar] at h
          have heid : e.id = id := Hstore id e hst
          have hse : store e.id = some e := by
            rw [heid]
            exact hst
          have hnd : (visitIds cd fc (Sum.inl e.id)).Nodup := by
            rw [heid]
            exact HN id e hst hpar
          obtain ⟨_, hmaps, _, _, _, _⟩ :=
            (createI_spec store cd Hstore fc).1 st e st' o h hse hnd
          rw [← heid]
          exact hmaps

/-- C9: `GetOrCreateBase` is idempotent — after a successful call, a second
call for the same identifier returns the very same state (no new object, no
registry change) and the identical object. `HN` states that the creation walk
of every root definition visits each map id at most once (the acyclic,
duplicate-free shape of real parent/child map data). -/
theorem getOrCreateBase_idempotent (store : Nat → Option MapEntryRec) (cd : Nat → List Nat)
    (fc : Nat)
    (Hstore : ∀ i e, store i = some e → e.id = i)
    (HN : ∀ r er, store r = some er → er.effectiveParent = none →
      (visitIds cd fc (Sum.inl r)).Nodup)
    (fp g : Nat) (st : RegState) (id : Nat) (st' : RegState) (o : Nat)
    (hrun : createBaseMap store cd fc fp st id = some (st', o)) :
    createBaseMap store cd fc (g+1) st' id = some (st', o) := by
  have hpost := createBaseMap_post store cd fc Hstore HN fp st id st' o hrun
  rw [createBaseMap, hpost]

/-- C8: for a definition `D` declaring (real or cosmetic) parent `P`, a
successful `GetOrCreateBase(D)` from a state where `D` is unregistered first
creates `P` (recursively up the chain) and ends in exactly the state that
`GetOrCreateBase(P)` alone produces; the object returned for `D` is the one
installed into the registry as a side effect of `P`'s creation, attached
exactly once as a child of `P`'s object (never a standalone root); and calling
either map afterwards is a pure lookup returning the same state and objects. -/
theorem parent_child_creation (store : Nat → Option MapEntryRec) (cd : Nat → List Nat)
    (fc fp : Nat)
    (Hstore : ∀ i e, store i = some e → e.id = i)
    (HN : ∀ r er, store r = some er → er.effectiveParent = none →
      (visitIds cd fc (Sum.inl r)).Nodup)
    (st0 : RegState) (D P : Nat) (eD : MapEntryRec)
    (hD : store D = some eD)
    (hP : eD.effectiveParent = some P)
    (hD0 : st0.i_maps D = none)
    (hDcd : D ∈ cd P)
    (huniq : ∀ c, D ∈ cd c → c = P)
    (stD : RegState) (oD : Nat)
    (hrun : createBaseMap store cd fc (fp+1) st0 D = some (stD, oD)) :
    ∃ oP pobj dobj,
      createBaseMap store cd fc fp st0 P = some (stD, oP) ∧
      stD.i_maps D = some oD ∧ stD.i_maps P = some oP ∧
      stD.heap oP = some pobj ∧ pobj.children.count oD = 1 ∧
      stD.heap oD = some dobj ∧ dobj.mapId = D ∧ dobj.instanced = eD.instanceable ∧
      (∀ g, createBaseMap store cd fc (g+1) stD D = some (stD, oD)) ∧
      (∀ g, createBaseMap store cd fc (g+1) stD P = some (stD, oP)) := by
  rw [createBaseMap] at hrun
  rw [hD0] at hrun
  dsimp only at hrun
  rw [hD] at hrun
  dsimp only at hrun
  rw [hP] at hrun
  dsimp only at hrun
  cases hrecP : createBaseMap store cd fc fp st0 P with
  | none =>
    rw [hrecP] at hrun
    cases hrun
  | some pr =>
    obtain ⟨st1, oP1⟩ := pr
    rw [hrecP] at hrun
    dsimp only at hrun
    cases hfD : st1.i_maps D with
    | none =>
      rw [hfD] at hrun
      cases hrun
    | some oD2 =>
      rw [hfD] at hrun
      dsimp only at hrun
      cases hrun
      rcases createBaseMap_cases store cd fc fp st0 P _ _ hrecP with ⟨hPf, hEq⟩ | hR
      · subst hEq
        rw [hD0] at hfD
        cases hfD
      · obtain ⟨R, eR, oR, hsR, hparR, hIrun⟩ := hR
        have heRid : eR.id = R := Hstore R eR hsR
        have hseR : store eR.id = some eR := by
          rw [heRid]
          exact hsR
        have hndR : (visitIds cd fc (Sum.inl eR.id)).Nodup := by
          rw [heRid]
          exact HN R eR hsR hparR
        obtain ⟨a1, a4, a2, a3, a5, a6⟩ :=
          (createI_spec store cd Hstore fc).1 st0 eR _ oR hIrun hseR hndR
        have hDvisit : D ∈ visitIds cd fc (Sum.inl eR.id) := by
          by_contra hc
          rw [a2 D hc, hD0] at hfD
          cases hfD
        have hDneR : D ≠ eR.id := by
          rw [heRid]
          intro hc
          subst hc
          rw [hD] at hsR
          injection hsR with he
          subst he
          rw [hP] at hparR
          cases hparR
        rcases (visit_src cd fc).1 eR.id D hDvisit with hc | ⟨v, hv1, hv2⟩
        · exact absurd hc hDneR
        have hvP : v = P := huniq v hv2
        rw [hvP] at hv1
        obtain ⟨ovD, evD, objD, d1, d2, d3, d4, d5, d6, d7, d8, d9⟩ := a5 D hDvisit
        obtain ⟨ovP, evP, objP, p1, p2, p3, p4, p5, p6, p7, p8, p9⟩ := a5 P hv1
        rw [hfD] at d1
        injection d1 with hovD
        subst hovD
        rw [hD] at d2
        injection d2 with hevD
        subst hevD
        have hpost := createBaseMap_post store cd fc Hstore HN fp st0 P _ _ hrecP
        rw [hpost] at p1
        injection p1 with hovP
        subst hovP
        have hoidD : oidOf stD D = oD := by
          show (stD.i_maps D).getD 0 = oD
          rw [hfD]
          rfl
        have huniqf : ∀ b ∈ cd P, oidOf stD b = oidOf stD D → b = D := by
          intro b hb hfb
          have hbvisit : b ∈ visitIds cd fc (Sum.inl eR.id) := a6 P hv1 b hb
          obtain ⟨ovb, evb, objb, b1, b2, b3, b4, b5, b6, b7, b8, b9⟩ := a5 b hbvisit
          have h1 : oidOf stD b = ovb := by
            show (stD.i_maps b).getD 0 = ovb
            rw [b1]
            rfl
          rw [h1, hoidD] at hfb
          rw [← hfb] at d5
          rw [d5] at b5
          injection b5 with hobj
          rw [← hobj] at b6
          rw [d6] at b6
          exact b6.symm
        have hcount : objP.children.count oD = 1 := by
          rw [p8]
          have hc := count_map_unique (oidOf stD) (cd P) D p9 hDcd huniqf
          rw [hoidD] at hc
          exact hc
        refine ⟨oP1, objP, objD, rfl, hfD, hpost, p5, hcount, d5, d6, d7, ?_, ?_⟩
        · intro g
          rw [createBaseMap, hfD]
        · intro g
          rw [createBaseMap, hpost]

/-! ## Instance Router (`CreateMap` / `FindMap`) -/

/-- `map->Instanceable()` of the object registered at `oid` (`false` when the
object is absent; the C++ paths below never dereference a missing object). -/
def heapInstanced (st : RegState) (oid : Nat) : Bool :=
  match st.heap oid with
  | some o => o.instanced
  | none => false

/-- `MapManager::CreateMap` (the Instance Router's `Resolve`): create/fetch
the base map; when it is instance-capable, delegate to
`MapInstanced::CreateInstanceForPlayer` — a collaborator outside this source
file (modelled from the spec: delegation to the instance-capable object's own
creation/lookup contract), abstracted as the `cifp` parameter. For a
non-instance-capable base map the base object is returned directly and the
`loginInstanceId` argument is not consulted at all. -/
def createMap (store : Nat → Option MapEntryRec) (cd : Nat → List Nat) (fc fp : Nat)
    (cifp : Nat → Nat → Option Nat) (st : RegState) (id loginInstanceId : Nat) :
    Option (RegState × Option Nat) :=
  match createBaseMap store cd fc fp st id with
  | none => none
  | some (st', o) =>
    if heapInstanced st' o then some (st', cifp id loginInstanceId)
    else some (st', some o)

/-- `MapManager::FindMap`: lookup-only; a non-instance-capable base map is
returned only for instance id `0`, else not-found; an instance-capable one
delegates to `MapInstanced::FindInstanceMap` (outside this file, the `fim`
parameter). -/
def findMap (st : RegState) (fim : Nat → Nat → Option Nat)
    (mapid instanceId : Nat) : Option Nat :=
  match st.i_maps mapid with
  | none => none
  | some o =>
    if !heapInstanced st o then (if instanceId = 0 then some o else none)
    else fim mapid instanceId

/-- C4 as amended: for a non-instanceable base map, `CreateMap` (Resolve)
returns the base object regardless of the preferred instance id — the
zero-only behavior belongs to the lookup `FindMap`, which returns the base
object exactly when the requested instance id is `0` and not-found
otherwise. -/
theorem resolve_non_instanceable (store : Nat → Option MapEntryRec) (cd : Nat → List Nat)
    (fc fp : Nat) (cifp fim : Nat → Nat → Option Nat)
    (st : RegState) (id loginInstanceId : Nat) (st' : RegState) (o : Nat)
    (hrun : createBaseMap store cd fc fp st id = some (st', o))
    (hni : heapInstanced st' o = false) :
    createMap store cd fc fp cifp st id loginInstanceId = some (st', some o) ∧
    (∀ mapid obj, st'.i_maps mapid = some obj → heapInstanced st' obj = false →
      findMap st' fim mapid 0 = some obj ∧
      ∀ iid, iid ≠ 0 → findMap st' fim mapid iid = none) := by
  constructor
  · rw [createMap, hrun]
    dsimp only
    rw [hni]
    rfl
  · intro mapid obj hfind hni2
    constructor
    · rw [findMap, hfind]
      dsimp only
      rw [hni2]
      rfl
    · intro iid hiid
      rw [findMap, hfind]
      dsimp only
      rw [hni2]
      show (if iid = 0 then some obj else none) = none
      rw [if_neg hiid]

/-! ## Concrete registry data for the witnesses -/

/-- Root definition, id 1, non-instanceable. -/
def entryRoot1 : MapEntryRec :=
  { id := 1, parentMapID := none, cosmeticParentMapID := none,
    instanceable := false, isDungeon := false, isRaid := false, expansion := 0 }

/-- Child definition, id 2, real parent 1. -/
def entryChild2 : MapEntryRec :=
  { id := 2, parentMapID := some 1, cosmeticParentMapID := none,
    instanceable := false, isDungeon := false, isRaid := false, expansion := 0 }

/-- The empty registry. -/
def regEmpty : RegState :=
  { i_maps := fun _ => none, heap := fun _ => none, nextObjId := 0 }

/-- Two-map store: 1 is a root, 2 its child terrain map. -/
def storeC8 : Nat → Option MapEntryRec :=
  fun i => if i = 1 then some entryRoot1 else if i = 2 then some entryChild2 else none

/-- Child data matching `storeC8`: map 2's terrain hangs off map 1. -/
def cdC8 : Nat → List Nat := fun i => if i = 1 then [2] else []

/-- The registry state after creating root 1 (and, transitively, child 2):
object 0 is map 1 with child object 1; object 1 is map 2. -/
def stC8 : RegState :=
  addChild
    { i_maps := updMap (updMap (fun _ => none) 1 0) 2 1,
      heap := updMap (updMap (fun _ => none) 0
        { mapId := 1, instanced := false, children := [] }) 1
        { mapId := 2, instanced := false, children := [] },
      nextObjId := 2 }
    0 1

theorem storeC8_ids : ∀ i e, storeC8 i = some e → e.id = i := by
  intro i e h
  by_cases h1 : i = 1
  · subst h1
    simp [storeC8] at h
    rw [← h]
    rfl
  · by_cases h2 : i = 2
    · subst h2
      simp [storeC8, h1] at h
      rw [← h]
      rfl
    · simp [storeC8, h1, h2] at h

theorem storeC8_rootsNodup : ∀ r er, storeC8 r = some er → er.effectiveParent = none →
    (visitIds cdC8 5 (Sum.inl r)).Nodup := by
  intro r er h1 h2
  by_cases hr1 : r = 1
  · subst hr1
    decide
  · by_cases hr2 : r = 2
    · subst hr2
      simp [storeC8, hr1] at h1
      rw [← h1] at h2
      exact absurd h2 (by decide)
    · simp [storeC8, hr1, hr2] at h1

theorem cdC8_uniq : ∀ c, 2 ∈ cdC8 c → c = 1 := by
  intro c hc
  by_cases h : c = 1
  · exact h
  · simp only [cdC8] at hc
    rw [if_neg h] at hc
    cases hc

/-- Witness for C8 at the concrete two-map store: creating map 2 first
creates its parent 1 (installing both), returns object 1 attached exactly
once as a child of map 1's object 0, and either order of calls ends in the
same state with the same objects. -/
theorem parent_child_creation_witness :
    ∃ oP pobj dobj,
      createBaseMap storeC8 cdC8 5 3 regEmpty 1 = some (stC8, oP) ∧
      stC8.i_maps 2 = some 1 ∧ stC8.i_maps 1 = some oP ∧
      stC8.heap oP = some pobj ∧ pobj.children.count 1 = 1 ∧
      stC8.heap 1 = some dobj ∧ dobj.mapId = 2 ∧
      dobj.instanced = entryChild2.instanceable ∧
      (∀ g, createBaseMap storeC8 cdC8 5 (g+1) stC8 2 = some (stC8, 1)) ∧
      (∀ g, createBaseMap storeC8 cdC8 5 (g+1) stC8 1 = some (stC8, oP)) :=
  parent_child_creation storeC8 cdC8 5 3 storeC8_ids storeC8_rootsNodup regEmpty 2 1
    entryChild2 rfl rfl rfl (by decide) cdC8_uniq stC8 1 rfl

/-- Witness for C9 at the concrete two-map store: a second call for map 1
returns the identical state and object. -/
theorem getOrCreateBase_idempotent_witness :
    createBaseMap storeC8 cdC8 5 3 stC8 1 = some (stC8, 0) :=
  getOrCreateBase_idempotent storeC8 cdC8 5 storeC8_ids storeC8_rootsNodup
    4 2 regEmpty 1 stC8 0 rfl

/-- Counterexample to C4 as stated: map 1 is non-instanceable, yet `CreateMap`
(Resolve) with the nonzero preferred instance id 7 returns the base object,
not a not-found result. -/
theorem resolve_nonzero_counterexample :
    heapInstanced stC8 0 = false ∧
    createMap storeC8 cdC8 5 4 (fun _ _ => none) regEmpty 1 7 = some (stC8, some 0) := by
  constructor
  · rfl
  · rfl

/-- Witness for the amended C4 at the concrete store: `CreateMap` with
preferred id 7 returns the base object, while `FindMap` answers it only for
instance id 0. -/
theorem resolve_non_instanceable_witness :
    createMap storeC8 cdC8 5 4 (fun _ _ => none) regEmpty 1 7 = some (stC8, some 0) ∧
    (∀ mapid obj, stC8.i_maps mapid = some obj → heapInstanced stC8 obj = false →
      findMap stC8 (fun _ _ => none) mapid 0 = some obj ∧
      ∀ iid, iid ≠ 0 → findMap stC8 (fun _ _ => none) mapid iid = none) :=
  resolve_non_instanceable storeC8 cdC8 5 4 (fun _ _ => none) (fun _ _ => none)
    regEmpty 1 7 stC8 0 rfl rfl

end MapMgr
